import Mathlib

set_option maxRecDepth 100000

/-!
Verification development for the reconciliation engine of the part-list
comparison tool (service module: `normalizeQuantity`, `applyTransformationRules`,
`compareData`).

Modelling conventions, chosen so that every definition is executable and
kernel-reducible (so concrete runs can be settled by `decide`):

* JavaScript numbers are idealised as exact rationals `ℚ`.  Rational values
  are always built through `nq` (normalised construction with a fuel-based
  gcd), and arithmetic inside the embedding goes through `qadd`, `qsub`,
  `qabs`; the bridge lemmas `qadd_eq_add`, `qsub_eq_sub`, `qabs_eq_abs`
  identify them with the Mathlib operations, which the theorems use.
* A spreadsheet cell is a `Cell`: a string or a number.  A row is an
  association list from column name to cell; a missing column models the
  JavaScript `undefined`.  `jsStr` is JavaScript `String(...)` (with
  `String(undefined) = "undefined"`); number stringification `jsNumToString`
  renders the exact terminating decimal expansion (the shortest round-trip
  form JavaScript prints for decimally-representable doubles; exponent
  notation for extreme magnitudes is not modelled, no claim exercises it).
* JavaScript string builtins (`trim`, `split`, `replace`, `toUpperCase`,
  `startsWith`, `includes`, `parseFloat`) are modelled by structurally
  recursive functions over `List Char` below (the core `String` functions
  of this toolchain do not reduce in the kernel).  `parseFloat` implements
  the longest-valid-prefix decimal grammar (sign, digits, optional point,
  optional exponent); the `Infinity` literal is not modelled (it would
  produce an infinite double, outside the rational idealisation, and no
  claim exercises it).
* JavaScript truthiness on `string | null` mapping slots (`null` and `""`
  are falsy) is `truthyOptStr`; on cells it is `truthyCell`.
* `Map`s are association lists in insertion order with update-in-place
  (`jmSet`/`jmUpdate`), exactly the JavaScript iteration-order semantics;
  `Set`s are duplicate-free lists in insertion order (`setAdd`).
* The source file's `partial*` identifiers (the target side of the
  comparison) are rendered `target*` here: `partial` is reserved in Lean.
-/

/-! ### Kernel-computable normalised rationals -/

/-- Fuel-based Euclidean gcd; structural recursion on the fuel so that the
kernel can evaluate it (the library gcd uses well-founded recursion). -/
def fgcd : Nat → Nat → Nat → Nat
  | 0, _, b => b
  | _ + 1, 0, b => b
  | fuel + 1, a + 1, b => fgcd fuel (b % (a + 1)) (a + 1)

/-- Kernel-computable gcd. -/
def ngcd (a b : Nat) : Nat := fgcd (a + 1) a b

theorem fgcd_eq (fuel a b : Nat) (h : a < fuel) : fgcd fuel a b = Nat.gcd a b := by
  induction fuel generalizing a b with
  | zero => omega
  | succ f ih =>
    cases a with
    | zero => simp [fgcd]
    | succ a =>
      rw [fgcd, ih (b % (a + 1)) (a + 1)
        (lt_of_lt_of_le (Nat.mod_lt _ (Nat.succ_pos a)) (by omega)), ← Nat.gcd_rec]

theorem ngcd_eq (a b : Nat) : ngcd a b = Nat.gcd a b :=
  fgcd_eq (a + 1) a b (Nat.lt_succ_self a)

/-- Numerator of the normalised fraction `n / d`. -/
def nqNum (n : Int) (d : Nat) : Int :=
  if n < 0 then -(↑(n.natAbs / ngcd n.natAbs d) : Int)
  else (↑(n.natAbs / ngcd n.natAbs d) : Int)

/-- Denominator of the normalised fraction `n / d`. -/
def nqDen (n : Int) (d : Nat) : Nat := d / ngcd n.natAbs d

theorem nqDen_ne_zero (n : Int) (d : Nat) (hd : d ≠ 0) : nqDen n d ≠ 0 := by
  have hgpos : 0 < Nat.gcd n.natAbs d :=
    Nat.gcd_pos_of_pos_right _ (Nat.pos_of_ne_zero hd)
  have h1 : Nat.gcd n.natAbs d ∣ d := Nat.gcd_dvd_right _ _
  have : 0 < nqDen n d := by
    rw [nqDen, ngcd_eq]
    exact Nat.div_pos (Nat.le_of_dvd (Nat.pos_of_ne_zero hd) h1) hgpos
  omega

theorem nqNum_natAbs (n : Int) (d : Nat) :
    (nqNum n d).natAbs = n.natAbs / ngcd n.natAbs d := by
  rw [nqNum]
  split
  · rw [Int.natAbs_neg, Int.natAbs_ofNat]
  · rw [Int.natAbs_ofNat]

theorem nq_reduced (n : Int) (d : Nat) (hd : d ≠ 0) :
    (nqNum n d).natAbs.Coprime (nqDen n d) := by
  have hgpos : 0 < Nat.gcd n.natAbs d :=
    Nat.gcd_pos_of_pos_right _ (Nat.pos_of_ne_zero hd)
  rw [nqNum_natAbs, nqDen, ngcd_eq]
  exact Nat.coprime_div_gcd_div_gcd hgpos

/-- Normalised rational `n / d` (for `d = 0` the result is `0`, matching
`mkRat`).  Built with `ngcd` so that the kernel can evaluate it. -/
def nq (n : Int) (d : Nat) : ℚ :=
  if hd : d = 0 then 0
  else ⟨nqNum n d, nqDen n d, nqDen_ne_zero n d hd, nq_reduced n d hd⟩

theorem nqNum_mul_gcd (n : Int) (d : Nat) :
    nqNum n d * (ngcd n.natAbs d : Int) = n := by
  rw [nqNum, ngcd_eq]
  have hdvd : Nat.gcd n.natAbs d ∣ n.natAbs := Nat.gcd_dvd_left _ _
  have hc : (↑(n.natAbs / Nat.gcd n.natAbs d) : Int) * (Nat.gcd n.natAbs d : Int)
      = (n.natAbs : Int) := by
    rw [← Int.natCast_mul, Nat.div_mul_cancel hdvd]
  rcases Int.natAbs_eq n with he | he
  · have hn : ¬ n < 0 := by omega
    simp only [hn, if_false]
    rw [hc, ← he]
  · by_cases hn : n < 0
    · simp only [hn, if_true, Int.neg_mul, hc]
      omega
    · have h0 : n = 0 := by omega
      simp [h0]

theorem nqDen_mul_gcd (n : Int) (d : Nat) :
    (nqDen n d : Int) * (ngcd n.natAbs d : Int) = (d : Int) := by
  rw [nqDen, ngcd_eq, ← Int.natCast_mul, Nat.div_mul_cancel (Nat.gcd_dvd_right _ _)]

theorem nq_eq_div (n : Int) (d : Nat) : nq n d = (n : ℚ) / (d : ℚ) := by
  rw [nq]
  split
  · next hd => simp [hd]
  · next hd =>
    have hg : 0 < Nat.gcd n.natAbs d :=
      Nat.gcd_pos_of_pos_right _ (Nat.pos_of_ne_zero hd)
    have hgne : (ngcd n.natAbs d : Int) ≠ 0 := by
      rw [ngcd_eq]; exact_mod_cast hg.ne'
    rw [Rat.mk'_eq_divInt]
    calc Rat.divInt (nqNum n d) (nqDen n d)
        = Rat.divInt (nqNum n d * (ngcd n.natAbs d : Int))
            ((nqDen n d : Int) * (ngcd n.natAbs d : Int)) :=
          (Rat.divInt_mul_right hgne).symm
      _ = Rat.divInt n d := by rw [nqNum_mul_gcd, nqDen_mul_gcd]
      _ = (n : ℚ) / (d : ℚ) := Rat.divInt_eq_div n d

/-- Addition as the engine computes it (kernel-reducible). -/
def qadd (a b : ℚ) : ℚ := nq (a.num * b.den + b.num * a.den) (a.den * b.den)

/-- Subtraction as the engine computes it (kernel-reducible). -/
def qsub (a b : ℚ) : ℚ := nq (a.num * b.den - b.num * a.den) (a.den * b.den)

/-- Absolute value as the engine computes it (kernel-reducible). -/
def qabs (q : ℚ) : ℚ := if q < 0 then -q else q

theorem qadd_eq_add (a b : ℚ) : qadd a b = a + b := by
  rw [qadd, nq_eq_div]
  have ha : (a.den : ℚ) ≠ 0 := by exact_mod_cast a.den_ne_zero
  have hb : (b.den : ℚ) ≠ 0 := by exact_mod_cast b.den_ne_zero
  conv_rhs => rw [← Rat.num_div_den a, ← Rat.num_div_den b]
  rw [div_add_div _ _ ha hb]
  push_cast
  ring_nf

theorem qsub_eq_sub (a b : ℚ) : qsub a b = a - b := by
  rw [qsub, nq_eq_div]
  have ha : (a.den : ℚ) ≠ 0 := by exact_mod_cast a.den_ne_zero
  have hb : (b.den : ℚ) ≠ 0 := by exact_mod_cast b.den_ne_zero
  conv_rhs => rw [← Rat.num_div_den a, ← Rat.num_div_den b]
  rw [div_sub_div _ _ ha hb]
  push_cast
  ring_nf

theorem qabs_eq_abs (q : ℚ) : qabs q = |q| := by
  rw [qabs]
  split
  · next h => rw [abs_of_neg h]
  · next h => rw [abs_of_nonneg (le_of_not_lt h)]

/-- The fixed absolute comparison tolerance `1e-6` of the engine. -/
def epsilon : ℚ := nq 1 1000000

theorem epsilon_eq : epsilon = 1 / 1000000 := by
  rw [epsilon, nq_eq_div]; norm_num

/-- The quantity-comparison test `Math.abs(a - b) < 1e-6` as the engine
computes it. -/
def qCloseTo (a b : ℚ) : Bool := qabs (qsub a b) < epsilon

theorem qCloseTo_iff (a b : ℚ) : qCloseTo a b = true ↔ |a - b| < 1 / 1000000 := by
  rw [qCloseTo, qabs_eq_abs, qsub_eq_sub, epsilon_eq, decide_eq_true_eq]

/-! ### JavaScript string builtins (structural recursion over `List Char`) -/

/-- JavaScript `String.prototype.trim` (both ends, whitespace). -/
def jsTrim (s : String) : String :=
  ⟨((s.data.dropWhile Char.isWhitespace).reverse.dropWhile Char.isWhitespace).reverse⟩

/-- `replace(/\./g, '')`: delete every `'.'` character. -/
def jsRemoveDots (s : String) : String := ⟨s.data.filter (fun c => !(c == '.'))⟩

/-- `replace(',', '.')` with a string pattern: JavaScript replaces only the
first occurrence. -/
def replaceFirstCommaAux : List Char → List Char
  | [] => []
  | c :: r => if c = ',' then '.' :: r else c :: replaceFirstCommaAux r

def jsReplaceFirstComma (s : String) : String := ⟨replaceFirstCommaAux s.data⟩

/-- JavaScript `String.prototype.split` with a one-character separator. -/
def splitOnCharAux (sep : Char) : List Char → List (List Char)
  | [] => [[]]
  | c :: r =>
    let rest := splitOnCharAux sep r
    if c = sep then [] :: rest
    else
      match rest with
      | [] => [[c]]
      | g :: gs => (c :: g) :: gs

def jsSplitOnChar (sep : Char) (s : String) : List String :=
  (splitOnCharAux sep s.data).map (fun l => ⟨l⟩)

/-- First component of `key.split('::')`: the characters before the first
occurrence of `"::"` (the whole string when there is none). -/
def keyCodeAux : List Char → List Char
  | ':' :: ':' :: _ => []
  | c :: r => c :: keyCodeAux r
  | [] => []

def keyCode (key : String) : String := ⟨keyCodeAux key.data⟩

/-- JavaScript `String.prototype.toUpperCase` (ASCII range, which is all the
engine's rule values use). -/
def jsToUpper (s : String) : String := ⟨s.data.map Char.toUpper⟩

/-- JavaScript `String.prototype.startsWith`. -/
def jsStartsWith (s pre : String) : Bool := pre.data.isPrefixOf s.data

/-- JavaScript `String.prototype.includes` (substring containment;
`includes("")` is `true`). -/
def jsIncludesAux (sub : List Char) : List Char → Bool
  | [] => sub.isEmpty
  | c :: r => sub.isPrefixOf (c :: r) || jsIncludesAux sub r

def jsIncludes (s sub : String) : Bool := jsIncludesAux sub.data s.data

/-! ### JavaScript `parseFloat` (longest valid decimal prefix) -/

def digitsToNat (ds : List Char) : Nat :=
  ds.foldl (fun n c => 10 * n + (c.toNat - 48)) 0

/-- Exponent part after the mantissa: `e`/`E`, optional sign, digits; an
invalid exponent part is ignored (exponent `0`), as `parseFloat` backtracks
over it. -/
def parseExpTail (cs : List Char) : Int :=
  match cs with
  | '+' :: r =>
    if (r.takeWhile Char.isDigit).isEmpty then 0
    else (digitsToNat (r.takeWhile Char.isDigit) : Int)
  | '-' :: r =>
    if (r.takeWhile Char.isDigit).isEmpty then 0
    else -(digitsToNat (r.takeWhile Char.isDigit) : Int)
  | _ =>
    if (cs.takeWhile Char.isDigit).isEmpty then 0
    else (digitsToNat (cs.takeWhile Char.isDigit) : Int)

def parseExpVal (cs : List Char) : Int :=
  match cs with
  | 'e' :: r => parseExpTail r
  | 'E' :: r => parseExpTail r
  | _ => 0

/-- Assemble `mant / 10^fracLen * 10^exponent` as an exact rational. -/
def applyExponent (mant : Nat) (fracLen : Nat) (rest : List Char) : ℚ :=
  let e := parseExpVal rest
  if 0 ≤ e then nq ((mant * 10 ^ e.toNat : Nat) : Int) (10 ^ fracLen)
  else nq (mant : Int) (10 ^ fracLen * 10 ^ (-e).toNat)

/-- Unsigned decimal literal prefix: `digits [. digits] [exponent]`, needing
at least one mantissa digit. -/
def parseUnsigned (cs : List Char) : Option ℚ :=
  let d1 := cs.takeWhile Char.isDigit
  let r1 := cs.dropWhile Char.isDigit
  match r1 with
  | '.' :: r2 =>
    let d2 := r2.takeWhile Char.isDigit
    let r3 := r2.dropWhile Char.isDigit
    if d1.isEmpty && d2.isEmpty then none
    else some (applyExponent (digitsToNat (d1 ++ d2)) d2.length r3)
  | _ =>
    if d1.isEmpty then none
    else some (applyExponent (digitsToNat d1) 0 r1)

/-- JavaScript `parseFloat` idealised over ℚ (`NaN` is `none`; the
`Infinity` literal is not modelled). -/
def parseJSFloat (s : String) : Option ℚ :=
  match s.data.dropWhile Char.isWhitespace with
  | '-' :: r => (parseUnsigned r).map (fun q => -q)
  | '+' :: r => parseUnsigned r
  | cs => parseUnsigned cs

/-! ### JavaScript number stringification -/

/-- Smallest `k` with `den ∣ 10^k` (any denominator a double can have admits
one; the search bound covers every double). -/
def findPow10 (d : Nat) : Option Nat :=
  (List.range 1100).find? (fun k => 10 ^ k % d = 0)

/-- JavaScript `String(number)` for the values the engine can produce:
integers print without a decimal point, other decimally-terminating
rationals print their exact shortest decimal expansion.  (Exponent notation
for extreme magnitudes, and non-terminating fallbacks, are not exercised by
any claim.) -/
def jsNumToString (q : ℚ) : String :=
  if q.den = 1 then toString q.num
  else
    match findPow10 q.den with
    | some k =>
      let m := q.num.natAbs * 10 ^ k / q.den
      let fracDigits := (toString (m % 10 ^ k)).data
      (if q.num < 0 then "-" else "") ++ toString (m / 10 ^ k) ++ "." ++
        ⟨List.replicate (k - fracDigits.length) '0' ++ fracDigits⟩
    | none => toString q.num ++ "/" ++ toString q.den

/-! ### Cells, rows, JavaScript objects and Maps -/

/-- A spreadsheet cell value: `string | number`. -/
inductive Cell where
  | str (s : String)
  | num (q : ℚ)
deriving DecidableEq

/-- A row: JavaScript object from column name to cell.  `rowGet` returning
`none` models reading an absent property (`undefined`). -/
abbrev Row : Type := List (String × Cell)

def rowGet (row : Row) (k : String) : Option Cell :=
  ((List.find? (fun p => p.1 == k)) row).map (·.2)

/-- JavaScript object property assignment (overwrite in place or append). -/
def rowSet (row : Row) (k : String) (v : Cell) : Row :=
  if ((List.find? (fun p => p.1 == k)) row).isSome then
    List.map (fun p => if p.1 == k then (k, v) else p) row
  else row ++ [(k, v)]

/-- JavaScript `String(x)` on a possibly-absent cell
(`String(undefined) = "undefined"`). -/
def jsStr : Option Cell → String
  | none => "undefined"
  | some (.str s) => s
  | some (.num q) => jsNumToString q

/-- JavaScript truthiness of a cell (`undefined`, `""` and `0` are falsy). -/
def truthyCell : Option Cell → Bool
  | none => false
  | some (.str s) => !(s == "")
  | some (.num q) => !(q == 0)

/-- `String(x || '')`: the stringified cell, or `""` when the cell is falsy. -/
def cellOrEmptyStr (c : Option Cell) : String :=
  if truthyCell c then jsStr c else ""

/-- JavaScript truthiness of a `string | null` mapping slot. -/
def truthyOptStr : Option String → Bool
  | none => false
  | some s => !(s == "")

/-- `col ? String(row[col]) : null` — read an optional role column. -/
def roleValue (row : Row) (col : Option String) : Option String :=
  match col with
  | none => none
  | some c => if c == "" then none else some (jsStr (rowGet row c))

/-- JavaScript `Map` lookup over an insertion-ordered association list. -/
def jmGet {α : Type} (m : List (String × α)) (k : String) : Option α :=
  ((List.find? (fun p => p.1 == k)) m).map (·.2)

def jmHas {α : Type} (m : List (String × α)) (k : String) : Bool :=
  (jmGet m k).isSome

/-- Update the value stored at a present key, keeping its position (the
constructed maps below never hold a key twice). -/
def jmUpdate {α : Type} (m : List (String × α)) (k : String) (f : α → α) :
    List (String × α) :=
  List.map (fun p => if p.1 == k then (p.1, f p.2) else p) m

instance {ε α : Type} [DecidableEq ε] [DecidableEq α] : DecidableEq (Except ε α) :=
  fun a b =>
    match a, b with
    | .error e1, .error e2 =>
      if h : e1 = e2 then .isTrue (by rw [h]) else .isFalse (by intro hc; cases hc; exact h rfl)
    | .ok v1, .ok v2 =>
      if h : v1 = v2 then .isTrue (by rw [h]) else .isFalse (by intro hc; cases hc; exact h rfl)
    | .error _, .ok _ => .isFalse (by intro hc; cases hc)
    | .ok _, .error _ => .isFalse (by intro hc; cases hc)

/-- JavaScript `Set.add` on an insertion-ordered duplicate-free list. -/
def setAdd (s : List String) (k : String) : List String :=
  if s.contains k then s else s ++ [k]

/-! ### `normalizeQuantity` -/

/-- `normalizeQuantity`: `null`/`undefined`/`""` parse to nothing; otherwise
stringify, trim, delete every `'.'`, replace the first `','` by `'.'`, and
`parseFloat` the result (`NaN` is `none`). -/
def normalizeQuantity (value : Option Cell) : Option ℚ :=
  match value with
  | none => none
  | some (.str "") => none
  | some v =>
    parseJSFloat (jsReplaceFirstComma (jsRemoveDots (jsTrim (jsStr (some v)))))

/-! ### Transformation rules (`types.ts` and `applyTransformationRules`) -/

/-- A parsed table: name, ordered headers, rows. -/
structure ParsedFile where
  name : String
  headers : List String
  data : List Row
deriving DecidableEq

/-- Sub-kinds of an exclusion rule.  The source names `CODE_PREFIX` and
`DESCRIPTION_PREFIX` are rendered `CODE_STARTS` and `DESCRIPTION_STARTS`
here. -/
inductive ExcludeSubType where
  | CODE_EXACT
  | CODE_STARTS
  | DESCRIPTION_CONTAINS
  | DESCRIPTION_STARTS
  | CATEGORY_EXACT
deriving DecidableEq

/-- The tagged rule union of `types.ts` (`MERGE` / `EXCLUDE`), with the
optional `enabled` flag. -/
inductive TransformationRule where
  | merge (sourceCodes : List String) (resultCode : String)
      (resultDescription : String) (enabled : Option Bool)
  | exclude (subType : ExcludeSubType) (value : String) (enabled : Option Bool)
deriving DecidableEq

def TransformationRule.enabledFlag : TransformationRule → Option Bool
  | .merge _ _ _ e => e
  | .exclude _ _ e => e

/-- `r.enabled !== false`: the active-rule test. -/
def isActiveRule (r : TransformationRule) : Bool :=
  !(r.enabledFlag == some false)

/-- The match test of one EXCLUDE rule against one row (the body of the
filtering loop of `applyTransformationRules`). -/
def excludeRuleMatches (codeColumn : String)
    (descriptionColumn categoryColumn : Option String)
    (st : ExcludeSubType) (v : String) (row : Row) : Bool :=
  match st with
  | .CODE_EXACT =>
    ((jsSplitOnChar '+' v).map jsTrim).contains (jsStr (rowGet row codeColumn))
  | .CODE_STARTS =>
    jsStartsWith (jsStr (rowGet row codeColumn)) v
  | .DESCRIPTION_CONTAINS =>
    truthyOptStr descriptionColumn &&
      jsIncludes (jsToUpper (cellOrEmptyStr (rowGet row (descriptionColumn.getD ""))))
        (jsToUpper v)
  | .DESCRIPTION_STARTS =>
    truthyOptStr descriptionColumn &&
      jsStartsWith (jsToUpper (cellOrEmptyStr (rowGet row (descriptionColumn.getD ""))))
        (jsToUpper v)
  | .CATEGORY_EXACT =>
    truthyOptStr categoryColumn &&
      jsTrim (cellOrEmptyStr (rowGet row (categoryColumn.getD ""))) == v

/-- Step 1 of `applyTransformationRules`: drop every row matched by some
active EXCLUDE rule (the `if (excludeRules.length > 0)` guard is kept for
fidelity; it changes nothing). -/
def applyExcludeRules (codeColumn : String)
    (descriptionColumn categoryColumn : Option String)
    (excludeRules : List (ExcludeSubType × String)) (data : List Row) : List Row :=
  if excludeRules.isEmpty then data
  else data.filter (fun row =>
    !(excludeRules.any (fun r =>
      excludeRuleMatches codeColumn descriptionColumn categoryColumn r.1 r.2 row)))

/-- The payload of a MERGE rule. -/
structure MergeRule where
  sourceCodes : List String
  resultCode : String
  resultDescription : String
deriving DecidableEq

/-- One iteration of the merged-quantity reduction: skip a row whose code
was already counted (the `processedCodes` set of the source), otherwise add
its normalized quantity (unparseable contributes `0`) and mark the code. -/
def mergeStep (codeColumn quantityColumn : String) (acc : ℚ × List String)
    (row : Row) : ℚ × List String :=
  let code := jsStr (rowGet row codeColumn)
  if acc.2.contains code then acc
  else (qadd acc.1 ((normalizeQuantity (rowGet row quantityColumn)).getD 0),
    acc.2 ++ [code])

/-- The merged quantity: fold over the matching rows, counting only the
first occurrence of each distinct source code. -/
def mergeTotalQuantity (codeColumn quantityColumn : String)
    (rowsToMerge : List Row) : ℚ :=
  (rowsToMerge.foldl (mergeStep codeColumn quantityColumn)
    ((0 : ℚ), ([] : List String))).1

/-- The cell the synthesized merge row holds under one header: the code
column gets the result code, the quantity column the merged total, the
(truthy) description column the result description, every other header the
empty string (checked in the source's order, code first). -/
def mergedCell (codeColumn quantityColumn : String)
    (descriptionColumn : Option String) (rule : MergeRule) (total : ℚ)
    (h : String) : Cell :=
  if h == codeColumn then .str rule.resultCode
  else if h == quantityColumn then .num total
  else if truthyOptStr descriptionColumn && descriptionColumn == some h then
    .str rule.resultDescription
  else .str ""

/-- The synthesized row of a MERGE rule: every header filled per
`mergedCell`, built by JavaScript object assignment over the headers. -/
def mergedRow (headers : List String) (codeColumn quantityColumn : String)
    (descriptionColumn : Option String) (rule : MergeRule) (total : ℚ) : Row :=
  headers.foldl (fun r h =>
    rowSet r h (mergedCell codeColumn quantityColumn descriptionColumn rule total h))
    []

/-- One iteration of the MERGE loop: partition the rows on membership of the
code in the rule's source-code set; when at least one row matches, drop them
and append the synthesized row (a rule with a falsy result code, or with no
matching row, leaves the table unchanged). -/
def applyMergeRule (headers : List String) (codeColumn quantityColumn : String)
    (descriptionColumn : Option String) (data : List Row) (rule : MergeRule) :
    List Row :=
  if rule.resultCode == "" then data
  else
    let rowsToMerge := data.filter
      (fun row => rule.sourceCodes.contains (jsStr (rowGet row codeColumn)))
    let remainingRows := data.filter
      (fun row => !(rule.sourceCodes.contains (jsStr (rowGet row codeColumn))))
    if rowsToMerge.isEmpty then data
    else remainingRows ++
      [mergedRow headers codeColumn quantityColumn descriptionColumn rule
        (mergeTotalQuantity codeColumn quantityColumn rowsToMerge)]

/-- The EXCLUDE payload of a rule (the `excludeRules` extraction). -/
def excludePayload : TransformationRule → Option (ExcludeSubType × String)
  | .exclude st v _ => some (st, v)
  | _ => none

/-- The MERGE payload of a rule (the `mergeRules` extraction). -/
def mergePayload : TransformationRule → Option MergeRule
  | .merge sc rc rd _ => some ⟨sc, rc, rd⟩
  | _ => none

/-- `applyTransformationRules`: filter the active rules, run the exclusion
pass, then fold the merge rules in list order. -/
def applyTransformationRules (parsedFile : ParsedFile)
    (rules : List TransformationRule) (codeColumn quantityColumn : String)
    (descriptionColumn categoryColumn : Option String) : ParsedFile :=
  let activeRules := rules.filter isActiveRule
  let excludeRules := activeRules.filterMap excludePayload
  let mergeRules := activeRules.filterMap mergePayload
  let data1 := applyExcludeRules codeColumn descriptionColumn categoryColumn
    excludeRules parsedFile.data
  let data2 := mergeRules.foldl
    (applyMergeRule parsedFile.headers codeColumn quantityColumn descriptionColumn)
    data1
  { parsedFile with data := data2 }

/-! ### Comparison data model (`types.ts`) -/

/-- A column mapping for one side.  All five role slots; `code` and
`quantity` are mandatory for comparison. -/
structure Mapping where
  code : Option String
  quantity : Option String
  description : Option String
  revision : Option String
  category : Option String
deriving DecidableEq

/-- The pair of mappings.  The source calls the target side `partial`
(a reserved word in Lean), rendered `target` here. -/
structure Mappings where
  original : Mapping
  target : Mapping
deriving DecidableEq

/-- The comparison result statuses.  `ABSENT` means missing from the target
list, `ABSENT_IN_ORIGINAL` present only in the target list. -/
inductive ResultStatus where
  | ABSENT_IN_ORIGINAL
  | ABSENT
  | QUANTITY_DIFFERENT
  | REVISION_DIFFERENT
  | QUANTITY_EQUAL
  | INVALID_QUANTITY
deriving DecidableEq

/-- One output record.  Quantities are numbers except that an invalid
original quantity keeps its raw stringified cell (`Cell.str`); target-side
quantities are always numeric when present. -/
structure ComparisonResult where
  targetCode : Option String
  targetQuantity : Option ℚ
  targetDescription : Option String
  targetRevision : Option String
  targetCategory : Option String
  originalCode : Option String
  originalQuantity : Option Cell
  originalDescription : Option String
  originalRevision : Option String
  originalCategory : Option String
  status : ResultStatus
deriving DecidableEq

/-- The `options` argument of `compareData`. -/
structure CompareOptions where
  ignoreRevision : Bool
deriving DecidableEq

/-- `getKey`: the comparison key — the code alone, or
`code + "::" + (revision ?? '')`. -/
def getKey (ignoreRevision : Bool) (code : String) (revision : Option String) :
    String :=
  if ignoreRevision then code else code ++ "::" ++ (revision.getD "")

/-! ### `compareData` step 1: the two target-side indexes -/

/-- One entry of the keyed target index `partialMapData`: quantity
accumulated per key, first-seen description/revision/category. -/
structure TargetEntry where
  quantity : ℚ
  description : Option String
  revision : Option String
  category : Option String
deriving DecidableEq

/-- One entry of the per-code fallback list `partialCodeToRevisions`:
quantity accumulated per distinct revision under that code. -/
structure RevisionEntry where
  revision : Option String
  description : Option String
  quantity : ℚ
  category : Option String
deriving DecidableEq

/-- Both target-side indexes together. -/
structure TargetIndexes where
  mapData : List (String × TargetEntry)
  codeToRevisions : List (String × List RevisionEntry)
deriving DecidableEq

/-- Indexing one target row: skipped unless the code is truthy and the
quantity parses; otherwise accumulate into the keyed index and (unless
revision is ignored) into the per-code revision list. -/
def indexTargetRow (ir : Bool) (tm : Mapping) (acc : TargetIndexes) (row : Row) :
    TargetIndexes :=
  let code := jsStr (rowGet row (tm.code.getD ""))
  match normalizeQuantity (rowGet row (tm.quantity.getD "")) with
  | none => acc
  | some q =>
    if code == "" then acc
    else
      let description := roleValue row tm.description
      let revision := roleValue row tm.revision
      let category := roleValue row tm.category
      let key := getKey ir code revision
      let md :=
        if jmHas acc.mapData key then
          jmUpdate acc.mapData key (fun e => { e with quantity := qadd e.quantity q })
        else acc.mapData ++ [(key, ⟨q, description, revision, category⟩)]
      let c2r :=
        if ir then acc.codeToRevisions
        else
          let list0 := (jmGet acc.codeToRevisions code).getD []
          let list1 :=
            if list0.any (fun r => r.revision == revision) then
              list0.map (fun r =>
                if r.revision == revision then { r with quantity := qadd r.quantity q }
                else r)
            else list0 ++ [⟨revision, description, q, category⟩]
          if jmHas acc.codeToRevisions code then
            jmUpdate acc.codeToRevisions code (fun _ => list1)
          else acc.codeToRevisions ++ [(code, list1)]
      ⟨md, c2r⟩

def buildTargetIndexes (ir : Bool) (tm : Mapping) (targetData : List Row) :
    TargetIndexes :=
  targetData.foldl (indexTargetRow ir tm) ⟨[], []⟩

/-! ### `compareData` step 2, non-aggregated walk -/

/-- Outcome of classifying one original row in the non-aggregated walk:
skipped (falsy code), an immediately emitted result, or accumulation into
the absent aggregator under its key.  The classification of a row depends
only on the row and the (fixed) target indexes — the loop state is never
read by the branch conditions — which is why the walk decomposes into a
`filterMap` of the emitted results followed by the aggregator flush. -/
inductive RowOutcome where
  | skip
  | emit (res : ComparisonResult)
  | absent (key : String) (q : ℚ)
deriving DecidableEq

/-- The `INVALID_QUANTITY` record for one original row (source fields
populated, the raw stringified quantity kept, target fields null).  The
same shape is pushed by the non-aggregated walk and by the aggregated
absent branch. -/
def invalidRowResult (om : Mapping) (row : Row) : ComparisonResult :=
  { originalCode := some (jsStr (rowGet row (om.code.getD ""))),
    originalQuantity := some (.str (jsStr (rowGet row (om.quantity.getD "")))),
    originalDescription := roleValue row om.description,
    originalRevision := roleValue row om.revision,
    originalCategory := roleValue row om.category,
    targetCode := none, targetQuantity := none, targetDescription := none,
    targetRevision := none, targetCategory := none,
    status := .INVALID_QUANTITY }

/-- The record of an exact key match in the non-aggregated walk: the `1e-6`
tolerance test picks `QUANTITY_EQUAL` or `QUANTITY_DIFFERENT`. -/
def exactMatchResult (om : Mapping) (row : Row) (q : ℚ) (e : TargetEntry) :
    ComparisonResult :=
  { originalCode := some (jsStr (rowGet row (om.code.getD ""))),
    originalQuantity := some (.num q),
    originalDescription := roleValue row om.description,
    originalRevision := roleValue row om.revision,
    originalCategory := roleValue row om.category,
    targetCode := some (jsStr (rowGet row (om.code.getD ""))),
    targetQuantity := some e.quantity,
    targetDescription := e.description,
    targetRevision := e.revision,
    targetCategory := e.category,
    status := if qCloseTo q e.quantity then .QUANTITY_EQUAL
      else .QUANTITY_DIFFERENT }

/-- The `REVISION_DIFFERENT` record of the non-aggregated walk: source data
paired with the given (first) entry of the code's revision list. -/
def revisionFallbackResult (om : Mapping) (row : Row) (q : ℚ)
    (e : RevisionEntry) : ComparisonResult :=
  { originalCode := some (jsStr (rowGet row (om.code.getD ""))),
    originalQuantity := some (.num q),
    originalDescription := roleValue row om.description,
    originalRevision := roleValue row om.revision,
    originalCategory := roleValue row om.category,
    targetCode := some (jsStr (rowGet row (om.code.getD ""))),
    targetQuantity := some e.quantity,
    targetDescription := e.description,
    targetRevision := e.revision,
    targetCategory := e.category,
    status := .REVISION_DIFFERENT }

/-- The per-row cascade of the non-aggregated walk: invalid quantity →
`INVALID_QUANTITY`; exact key match → `QUANTITY_EQUAL`/`QUANTITY_DIFFERENT`
by the `1e-6` test; bare-code revision fallback → `REVISION_DIFFERENT`
against the first entry of the code's revision list; otherwise absent. -/
def classifyOriginalRow (ir : Bool) (idx : TargetIndexes) (om : Mapping)
    (row : Row) : RowOutcome :=
  let originalCode := jsStr (rowGet row (om.code.getD ""))
  if originalCode == "" then .skip
  else
    match normalizeQuantity (rowGet row (om.quantity.getD "")) with
    | none => .emit (invalidRowResult om row)
    | some q =>
      let key := getKey ir originalCode (roleValue row om.revision)
      match jmGet idx.mapData key with
      | some e => .emit (exactMatchResult om row q e)
      | none =>
        match (if ir then none else jmGet idx.codeToRevisions originalCode) with
        | some (e :: _) => .emit (revisionFallbackResult om row q e)
        | _ => .absent key q

/-! Equation lemmas for `classifyOriginalRow`, one per branch of the
cascade. -/

theorem classify_of_empty (ir : Bool) (idx : TargetIndexes) (om : Mapping)
    (row : Row) (hc : jsStr (rowGet row (om.code.getD "")) = "") :
    classifyOriginalRow ir idx om row = .skip := by
  simp [classifyOriginalRow, hc]

theorem classify_of_invalid (ir : Bool) (idx : TargetIndexes) (om : Mapping)
    (row : Row) (hc : jsStr (rowGet row (om.code.getD "")) ≠ "")
    (hn : normalizeQuantity (rowGet row (om.quantity.getD "")) = none) :
    classifyOriginalRow ir idx om row = .emit (invalidRowResult om row) := by
  simp [classifyOriginalRow, hc, hn]

theorem classify_of_match (ir : Bool) (idx : TargetIndexes) (om : Mapping)
    (row : Row) (q : ℚ) (e : TargetEntry)
    (hc : jsStr (rowGet row (om.code.getD "")) ≠ "")
    (hn : normalizeQuantity (rowGet row (om.quantity.getD "")) = some q)
    (hm : jmGet idx.mapData
      (getKey ir (jsStr (rowGet row (om.code.getD ""))) (roleValue row om.revision))
      = some e) :
    classifyOriginalRow ir idx om row = .emit (exactMatchResult om row q e) := by
  simp [classifyOriginalRow, hc, hn, hm]

theorem classify_of_revision (ir : Bool) (idx : TargetIndexes) (om : Mapping)
    (row : Row) (q : ℚ) (e : RevisionEntry) (rest : List RevisionEntry)
    (hc : jsStr (rowGet row (om.code.getD "")) ≠ "")
    (hn : normalizeQuantity (rowGet row (om.quantity.getD "")) = some q)
    (hm : jmGet idx.mapData
      (getKey ir (jsStr (rowGet row (om.code.getD ""))) (roleValue row om.revision))
      = none)
    (hrv : (if ir then none else
      jmGet idx.codeToRevisions (jsStr (rowGet row (om.code.getD ""))))
      = some (e :: rest)) :
    classifyOriginalRow ir idx om row = .emit (revisionFallbackResult om row q e) := by
  simp only [classifyOriginalRow]
  rw [if_neg (by simp [hc]), hn, hm, hrv]

theorem classify_of_absent (ir : Bool) (idx : TargetIndexes) (om : Mapping)
    (row : Row) (q : ℚ)
    (hc : jsStr (rowGet row (om.code.getD "")) ≠ "")
    (hn : normalizeQuantity (rowGet row (om.quantity.getD "")) = some q)
    (hm : jmGet idx.mapData
      (getKey ir (jsStr (rowGet row (om.code.getD ""))) (roleValue row om.revision))
      = none)
    (hrv : ∀ l, (if ir then none else
      jmGet idx.codeToRevisions (jsStr (rowGet row (om.code.getD ""))))
      = some l → l = []) :
    classifyOriginalRow ir idx om row =
      .absent (getKey ir (jsStr (rowGet row (om.code.getD "")))
        (roleValue row om.revision)) q := by
  simp only [classifyOriginalRow]
  rw [if_neg (by simp [hc]), hn, hm]
  cases hv : (if ir then none else
      jmGet idx.codeToRevisions (jsStr (rowGet row (om.code.getD "")))) with
  | none => rfl
  | some l =>
    have := hrv l hv
    subst this
    rfl

/-- Exhaustive inversion: every classification outcome arises from exactly
one branch of the cascade. -/
theorem classify_inversion (ir : Bool) (idx : TargetIndexes) (om : Mapping)
    (row : Row) :
    (jsStr (rowGet row (om.code.getD "")) = "" ∧
      classifyOriginalRow ir idx om row = .skip) ∨
    (jsStr (rowGet row (om.code.getD "")) ≠ "" ∧
      normalizeQuantity (rowGet row (om.quantity.getD "")) = none ∧
      classifyOriginalRow ir idx om row = .emit (invalidRowResult om row)) ∨
    (∃ q e, jsStr (rowGet row (om.code.getD "")) ≠ "" ∧
      normalizeQuantity (rowGet row (om.quantity.getD "")) = some q ∧
      jmGet idx.mapData (getKey ir (jsStr (rowGet row (om.code.getD "")))
        (roleValue row om.revision)) = some e ∧
      classifyOriginalRow ir idx om row = .emit (exactMatchResult om row q e)) ∨
    (∃ q e rest, jsStr (rowGet row (om.code.getD "")) ≠ "" ∧
      normalizeQuantity (rowGet row (om.quantity.getD "")) = some q ∧
      (if ir then none else jmGet idx.codeToRevisions
        (jsStr (rowGet row (om.code.getD "")))) = some (e :: rest) ∧
      classifyOriginalRow ir idx om row = .emit (revisionFallbackResult om row q e)) ∨
    (∃ q, jsStr (rowGet row (om.code.getD "")) ≠ "" ∧
      normalizeQuantity (rowGet row (om.quantity.getD "")) = some q ∧
      classifyOriginalRow ir idx om row =
        .absent (getKey ir (jsStr (rowGet row (om.code.getD "")))
          (roleValue row om.revision)) q) := by
  by_cases hc : jsStr (rowGet row (om.code.getD "")) = ""
  · exact Or.inl ⟨hc, classify_of_empty ir idx om row hc⟩
  · cases hn : normalizeQuantity (rowGet row (om.quantity.getD "")) with
    | none =>
      exact Or.inr (Or.inl ⟨hc, rfl, classify_of_invalid ir idx om row hc hn⟩)
    | some q =>
      cases hm : jmGet idx.mapData (getKey ir (jsStr (rowGet row (om.code.getD "")))
          (roleValue row om.revision)) with
      | some e =>
        exact Or.inr (Or.inr (Or.inl
          ⟨q, e, hc, rfl, rfl, classify_of_match ir idx om row q e hc hn hm⟩))
      | none =>
        cases hrv : (if ir then none else
            jmGet idx.codeToRevisions (jsStr (rowGet row (om.code.getD "")))) with
        | none =>
          refine Or.inr (Or.inr (Or.inr (Or.inr ⟨q, hc, rfl, ?_⟩)))
          exact classify_of_absent ir idx om row q hc hn hm
            (fun l hl => by rw [hrv] at hl; cases hl)
        | some l =>
          cases l with
          | nil =>
            refine Or.inr (Or.inr (Or.inr (Or.inr ⟨q, hc, rfl, ?_⟩)))
            exact classify_of_absent ir idx om row q hc hn hm
              (fun l hl => by rw [hrv] at hl; cases hl; rfl)
          | cons e rest =>
            exact Or.inr (Or.inr (Or.inr (Or.inl
              ⟨q, e, rest, hc, rfl, rfl,
                classify_of_revision ir idx om row q e rest hc hn hm hrv⟩)))

/-- The absent-item aggregator of the non-aggregated walk: per key, the
summed quantity and the first row as field template. -/
def nonAggAbsentMap (ir : Bool) (idx : TargetIndexes) (om : Mapping)
    (rows : List Row) : List (String × (ℚ × Row)) :=
  rows.foldl (fun m row =>
    match classifyOriginalRow ir idx om row with
    | .absent k q =>
      if jmHas m k then jmUpdate m k (fun e => (qadd e.1 q, e.2))
      else m ++ [(k, (q, row))]
    | _ => m) []

/-- The `ABSENT` record flushed from one aggregator entry. -/
def mkAbsentResult (om : Mapping) (entry : ℚ × Row) : ComparisonResult :=
  { originalCode := some (jsStr (rowGet entry.2 (om.code.getD ""))),
    originalQuantity := some (.num entry.1),
    originalDescription := roleValue entry.2 om.description,
    originalRevision := roleValue entry.2 om.revision,
    originalCategory := roleValue entry.2 om.category,
    targetCode := none, targetQuantity := none, targetDescription := none,
    targetRevision := none, targetCategory := none,
    status := .ABSENT }

/-- The non-aggregated walk: the emitted per-row results in row order,
followed by the flushed absent aggregator.  (Faithful to the source loop:
row classification never reads the loop state, so the in-loop pushes are
exactly the `filterMap`; the `processedPartialKeysForMainLoop` set of the
source is written but never read — the definitive step-3 set below replaces
it — so it is not modelled.) -/
def nonAggResults (ir : Bool) (idx : TargetIndexes) (om : Mapping)
    (rows : List Row) : List ComparisonResult :=
  rows.filterMap (fun row =>
    match classifyOriginalRow ir idx om row with
    | .emit r => some r
    | _ => none)
  ++ (nonAggAbsentMap ir idx om rows).map (fun p => mkAbsentResult om p.2)

/-! ### `compareData` step 2, aggregated walk -/

/-- One group of the aggregated original index: summed quantity (parseable
rows only; a group opened by an unparseable row starts at `0`), first-seen
description/revision/category, and the row list. -/
structure OrigGroup where
  quantity : ℚ
  description : Option String
  revision : Option String
  category : Option String
  rows : List Row
deriving DecidableEq

def addRowToGroups (ir : Bool) (om : Mapping) (m : List (String × OrigGroup))
    (row : Row) : List (String × OrigGroup) :=
  let code := jsStr (rowGet row (om.code.getD ""))
  if code == "" then m
  else
    let q := normalizeQuantity (rowGet row (om.quantity.getD ""))
    let key := getKey ir code (roleValue row om.revision)
    if jmHas m key then
      jmUpdate m key (fun g =>
        { g with
          quantity := match q with | some qv => qadd g.quantity qv | none => g.quantity,
          rows := g.rows ++ [row] })
    else m ++ [(key,
      ⟨q.getD 0, roleValue row om.description, roleValue row om.revision,
        roleValue row om.category, [row]⟩)]

def buildOrigGroups (ir : Bool) (om : Mapping) (rows : List Row) :
    List (String × OrigGroup) :=
  rows.foldl (addRowToGroups ir om) []

/-- One exploded per-row record of an aggregate-quantity mismatch: the row's
own quantity (or `INVALID_QUANTITY`) against the group's matched target
aggregate. -/
def explodeRow (om : Mapping) (groupCode : String) (te : TargetEntry)
    (row : Row) : ComparisonResult :=
  let oCode := jsStr (rowGet row (om.code.getD ""))
  let raw := rowGet row (om.quantity.getD "")
  let oDesc := roleValue row om.description
  let oRev := roleValue row om.revision
  let oCat := roleValue row om.category
  match normalizeQuantity raw with
  | none =>
    { originalCode := some oCode, originalQuantity := some (.str (jsStr raw)),
      originalDescription := oDesc, originalRevision := oRev,
      originalCategory := oCat,
      targetCode := some groupCode, targetQuantity := some te.quantity,
      targetDescription := te.description, targetRevision := te.revision,
      targetCategory := te.category,
      status := .INVALID_QUANTITY }
  | some q =>
    { originalCode := some oCode, originalQuantity := some (.num q),
      originalDescription := oDesc, originalRevision := oRev,
      originalCategory := oCat,
      targetCode := some groupCode, targetQuantity := some te.quantity,
      targetDescription := te.description, targetRevision := te.revision,
      targetCategory := te.category,
      status := if qCloseTo q te.quantity then .QUANTITY_EQUAL
        else .QUANTITY_DIFFERENT }

/-- The single aggregate `QUANTITY_EQUAL` record of a group whose aggregate
quantity matches the target aggregate within tolerance. -/
def groupEqualResult (code : String) (g : OrigGroup) (te : TargetEntry) :
    ComparisonResult :=
  { originalCode := some code,
    originalQuantity := some (.num g.quantity),
    originalDescription := g.description,
    originalRevision := g.revision,
    originalCategory := g.category,
    targetCode := some code,
    targetQuantity := some te.quantity,
    targetDescription := te.description,
    targetRevision := te.revision,
    targetCategory := te.category,
    status := .QUANTITY_EQUAL }

/-- The single `REVISION_DIFFERENT` record of a group whose key misses but
whose bare code has revision-fallback entries. -/
def groupRevisionResult (code : String) (g : OrigGroup) (e : RevisionEntry) :
    ComparisonResult :=
  { originalCode := some code,
    originalQuantity := some (.num g.quantity),
    originalDescription := g.description,
    originalRevision := g.revision,
    originalCategory := g.category,
    targetCode := some code,
    targetQuantity := some e.quantity,
    targetDescription := e.description,
    targetRevision := e.revision,
    targetCategory := e.category,
    status := .REVISION_DIFFERENT }

/-- The grouped `ABSENT` record over a group's valid-quantity rows. -/
def groupAbsentResult (code : String) (g : OrigGroup) (total : ℚ) :
    ComparisonResult :=
  { originalCode := some code,
    originalQuantity := some (.num total),
    originalDescription := g.description,
    originalRevision := g.revision,
    originalCategory := g.category,
    targetCode := none, targetQuantity := none,
    targetDescription := none, targetRevision := none,
    targetCategory := none,
    status := .ABSENT }

/-- The emissions of one aggregated group: exact match → one aggregate
`QUANTITY_EQUAL` or the per-row explosion; else revision fallback → one
`REVISION_DIFFERENT`; else one `ABSENT` over the valid rows (if any) plus
one `INVALID_QUANTITY` per invalid row.  (`rows` is never empty for a built
group; the `[]` arm renders the source's unreachable `rows[0]` access.) -/
def emitAggGroup (ir : Bool) (idx : TargetIndexes) (om : Mapping)
    (key : String) (g : OrigGroup) : List ComparisonResult :=
  match g.rows with
  | [] => []
  | r0 :: _ =>
    let originalCode := jsStr (rowGet r0 (om.code.getD ""))
    match jmGet idx.mapData key with
    | some te =>
      if qCloseTo g.quantity te.quantity then [groupEqualResult originalCode g te]
      else g.rows.map (explodeRow om originalCode te)
    | none =>
      match (if ir then none else jmGet idx.codeToRevisions originalCode) with
      | some (e :: _) => [groupRevisionResult originalCode g e]
      | _ =>
        let validRows := g.rows.filter (fun r =>
          (normalizeQuantity (rowGet r (om.quantity.getD ""))).isSome)
        let invalidRows := g.rows.filter (fun r =>
          (normalizeQuantity (rowGet r (om.quantity.getD ""))).isNone)
        (if validRows.isEmpty then []
         else [groupAbsentResult originalCode g (validRows.foldl (fun s r =>
           qadd s ((normalizeQuantity (rowGet r (om.quantity.getD ""))).getD 0)) 0)])
        ++ invalidRows.map (invalidRowResult om)

/-- The aggregated walk: the groups in insertion order, each contributing
its emissions. -/
def aggResults (ir : Bool) (idx : TargetIndexes) (om : Mapping)
    (rows : List Row) : List ComparisonResult :=
  (buildOrigGroups ir om rows).flatMap (fun p => emitAggGroup ir idx om p.1 p.2)

/-! ### `compareData` steps 3–4: definitive processed keys, target-only
absences -/

/-- Step 3's aggregated view of the original rows: per key, the first-seen
(code, revision) pair. -/
def buildCheckMap (ir : Bool) (om : Mapping) (rows : List Row) :
    List (String × (String × Option String)) :=
  rows.foldl (fun m row =>
    let code := jsStr (rowGet row (om.code.getD ""))
    if code == "" then m
    else
      let revision := roleValue row om.revision
      let key := getKey ir code revision
      if jmHas m key then m else m ++ [(key, (code, revision))]) []

/-- One iteration of step 3: mark the source key if the target index holds
it, else mark every revision-variant key of the bare code when the fallback
list is non-empty. -/
def dpkStep (ir : Bool) (idx : TargetIndexes) (s : List String)
    (p : String × (String × Option String)) : List String :=
  if jmHas idx.mapData p.1 then setAdd s p.1
  else
    match (if ir then none else jmGet idx.codeToRevisions p.2.1) with
    | some (e :: rest) =>
      ((e :: rest) : List RevisionEntry).foldl
        (fun s2 rev => setAdd s2 (getKey ir p.2.1 rev.revision)) s
    | _ => s

/-- Step 3's definitive processed-key set. -/
def definitiveProcessedKeys (ir : Bool) (idx : TargetIndexes) (om : Mapping)
    (rows : List Row) : List String :=
  (buildCheckMap ir om rows).foldl (dpkStep ir idx) []

/-- Step 4: every target-index entry whose key was never marked processed
becomes an `ABSENT_IN_ORIGINAL` record (the code recovered as the key's
prefix before `"::"`). -/
def resultsFromTarget (processed : List String)
    (mapData : List (String × TargetEntry)) : List ComparisonResult :=
  mapData.filterMap (fun p =>
    if processed.contains p.1 then none
    else some {
      originalCode := none, originalQuantity := none,
      originalDescription := none, originalRevision := none,
      originalCategory := none,
      targetCode := some (keyCode p.1),
      targetQuantity := some p.2.quantity,
      targetDescription := p.2.description,
      targetRevision := p.2.revision,
      targetCategory := p.2.category,
      status := .ABSENT_IN_ORIGINAL })

/-- `compareData`: the missing-mapping guard, the target indexes, the
display-mode walk, and the definitive target-only-absence pass, in source
order. -/
def compareData (originalData targetData : List Row) (mappings : Mappings)
    (aggregate : Bool) (options : CompareOptions) :
    Except String (List ComparisonResult) :=
  if !(truthyOptStr mappings.original.code && truthyOptStr mappings.original.quantity
      && truthyOptStr mappings.target.code && truthyOptStr mappings.target.quantity) then
    .error "Mappatura colonne obbligatorie mancante."
  else
    let ir := options.ignoreRevision
    let idx := buildTargetIndexes ir mappings.target targetData
    let fromOriginal :=
      if aggregate then aggResults ir idx mappings.original originalData
      else nonAggResults ir idx mappings.original originalData
    let processed := definitiveProcessedKeys ir idx mappings.original originalData
    .ok (fromOriginal ++ resultsFromTarget processed idx.mapData)

/-! ### Helper lemmas: branch equations for `emitAggGroup` -/

theorem emitAgg_of_nil (ir : Bool) (idx : TargetIndexes) (om : Mapping)
    (key : String) (g : OrigGroup) (h : g.rows = []) :
    emitAggGroup ir idx om key g = [] := by
  unfold emitAggGroup; rw [h]

theorem emitAgg_of_match_close (ir : Bool) (idx : TargetIndexes) (om : Mapping)
    (key : String) (g : OrigGroup) (r0 : Row) (rest : List Row) (te : TargetEntry)
    (hrows : g.rows = r0 :: rest)
    (hm : jmGet idx.mapData key = some te)
    (hclose : qCloseTo g.quantity te.quantity = true) :
    emitAggGroup ir idx om key g =
      [groupEqualResult (jsStr (rowGet r0 (om.code.getD ""))) g te] := by
  unfold emitAggGroup
  rw [hrows]
  simp [hm, hclose]

theorem emitAgg_of_match_far (ir : Bool) (idx : TargetIndexes) (om : Mapping)
    (key : String) (g : OrigGroup) (r0 : Row) (rest : List Row) (te : TargetEntry)
    (hrows : g.rows = r0 :: rest)
    (hm : jmGet idx.mapData key = some te)
    (hfar : qCloseTo g.quantity te.quantity = false) :
    emitAggGroup ir idx om key g =
      g.rows.map (explodeRow om (jsStr (rowGet r0 (om.code.getD ""))) te) := by
  unfold emitAggGroup
  rw [hrows]
  simp [hm, hfar]

theorem emitAgg_of_revision (ir : Bool) (idx : TargetIndexes) (om : Mapping)
    (key : String) (g : OrigGroup) (r0 : Row) (rest : List Row)
    (e : RevisionEntry) (erest : List RevisionEntry)
    (hrows : g.rows = r0 :: rest)
    (hm : jmGet idx.mapData key = none)
    (hrv : (if ir then none else
      jmGet idx.codeToRevisions (jsStr (rowGet r0 (om.code.getD ""))))
      = some (e :: erest)) :
    emitAggGroup ir idx om key g =
      [groupRevisionResult (jsStr (rowGet r0 (om.code.getD ""))) g e] := by
  unfold emitAggGroup
  rw [hrows]
  simp only [hm, hrv]

theorem emitAgg_of_absent (ir : Bool) (idx : TargetIndexes) (om : Mapping)
    (key : String) (g : OrigGroup) (r0 : Row) (rest : List Row)
    (hrows : g.rows = r0 :: rest)
    (hm : jmGet idx.mapData key = none)
    (hrv : ∀ l, (if ir then none else
      jmGet idx.codeToRevisions (jsStr (rowGet r0 (om.code.getD ""))))
      = some l → l = []) :
    emitAggGroup ir idx om key g =
      (if (g.rows.filter (fun r =>
          (normalizeQuantity (rowGet r (om.quantity.getD ""))).isSome)).isEmpty
       then []
       else [groupAbsentResult (jsStr (rowGet r0 (om.code.getD ""))) g
         ((g.rows.filter (fun r =>
            (normalizeQuantity (rowGet r (om.quantity.getD ""))).isSome)).foldl
          (fun s r => qadd s ((normalizeQuantity (rowGet r (om.quantity.getD ""))).getD 0))
          0)])
      ++ (g.rows.filter (fun r =>
          (normalizeQuantity (rowGet r (om.quantity.getD ""))).isNone)).map
        (invalidRowResult om) := by
  unfold emitAggGroup
  rw [hrows]
  cases hv : (if ir then none else
      jmGet idx.codeToRevisions (jsStr (rowGet r0 (om.code.getD "")))) with
  | none => simp only [hm, hv, hrows]
  | some l =>
    have := hrv l hv
    subst this
    simp only [hm, hv, hrows]

/-! ### Helper lemmas: statuses of the step-B emissions -/

theorem classify_emit_status (ir : Bool) (idx : TargetIndexes) (om : Mapping)
    (row : Row) (r : ComparisonResult)
    (h : classifyOriginalRow ir idx om row = .emit r) :
    r.status ≠ .ABSENT_IN_ORIGINAL ∧ r.status ≠ .ABSENT := by
  rcases classify_inversion ir idx om row with
    ⟨_, hcl⟩ | ⟨_, _, hcl⟩ | ⟨q, e, _, _, _, hcl⟩ | ⟨q, e, rest, _, _, _, hcl⟩ |
    ⟨q, _, _, hcl⟩ <;> rw [hcl] at h
  · cases h
  · cases h
    constructor <;> simp [invalidRowResult]
  · cases h
    constructor <;> · simp only [exactMatchResult]; split <;> simp
  · cases h
    constructor <;> simp [revisionFallbackResult]
  · cases h

theorem explodeRow_status (om : Mapping) (c : String) (te : TargetEntry)
    (row : Row) :
    (explodeRow om c te row).status ≠ .ABSENT_IN_ORIGINAL ∧
    (explodeRow om c te row).status ≠ .ABSENT := by
  cases hq : normalizeQuantity (rowGet row (om.quantity.getD "")) with
  | none => constructor <;> simp [explodeRow, hq]
  | some q =>
    constructor <;> · simp only [explodeRow, hq]; split <;> simp

theorem emitAggGroup_status (ir : Bool) (idx : TargetIndexes) (om : Mapping)
    (k : String) (g : OrigGroup) (r : ComparisonResult)
    (h : r ∈ emitAggGroup ir idx om k g) : r.status ≠ .ABSENT_IN_ORIGINAL := by
  cases hrows : g.rows with
  | nil => rw [emitAgg_of_nil ir idx om k g hrows] at h; cases h
  | cons r0 rest =>
    cases hm : jmGet idx.mapData k with
    | some te =>
      cases hclose : qCloseTo g.quantity te.quantity with
      | true =>
        rw [emitAgg_of_match_close ir idx om k g r0 rest te hrows hm hclose] at h
        simp only [List.mem_singleton] at h
        rw [h]
        simp [groupEqualResult]
      | false =>
        rw [emitAgg_of_match_far ir idx om k g r0 rest te hrows hm hclose] at h
        simp only [List.mem_map] at h
        obtain ⟨row, _, hr⟩ := h
        exact hr ▸ (explodeRow_status om _ te row).1
    | none =>
      cases hrv : (if ir then none else
          jmGet idx.codeToRevisions (jsStr (rowGet r0 (om.code.getD "")))) with
      | some l =>
        cases l with
        | cons e erest =>
          rw [emitAgg_of_revision ir idx om k g r0 rest e erest hrows hm hrv] at h
          simp only [List.mem_singleton] at h
          rw [h]
          simp [groupRevisionResult]
        | nil =>
          rw [emitAgg_of_absent ir idx om k g r0 rest hrows hm
            (fun l hl => by rw [hrv] at hl; cases hl; rfl)] at h
          rw [List.mem_append] at h
          rcases h with h | h
          · split at h
            · cases h
            · simp only [List.mem_singleton] at h
              rw [h]; simp [groupAbsentResult]
          · simp only [List.mem_map] at h
            obtain ⟨row, _, hr⟩ := h
            rw [← hr]; simp [invalidRowResult]
      | none =>
        rw [emitAgg_of_absent ir idx om k g r0 rest hrows hm
          (fun l hl => by rw [hrv] at hl; cases hl)] at h
        rw [List.mem_append] at h
        rcases h with h | h
        · split at h
          · cases h
          · simp only [List.mem_singleton] at h
            rw [h]; simp [groupAbsentResult]
        · simp only [List.mem_map] at h
          obtain ⟨row, _, hr⟩ := h
          rw [← hr]; simp [invalidRowResult]

theorem nonAggResults_status (ir : Bool) (idx : TargetIndexes) (om : Mapping)
    (rows : List Row) (r : ComparisonResult)
    (h : r ∈ nonAggResults ir idx om rows) : r.status ≠ .ABSENT_IN_ORIGINAL := by
  unfold nonAggResults at h
  rw [List.mem_append] at h
  rcases h with h | h
  · simp only [List.mem_filterMap] at h
    obtain ⟨row, _, hr⟩ := h
    revert hr
    cases hc : classifyOriginalRow ir idx om row <;> intro hr <;> simp at hr
    next res =>
      exact hr ▸ (classify_emit_status ir idx om row res hc).1
  · simp only [List.mem_map] at h
    obtain ⟨p, _, hr⟩ := h
    rw [← hr]
    simp [mkAbsentResult]

theorem aggResults_status (ir : Bool) (idx : TargetIndexes) (om : Mapping)
    (rows : List Row) (r : ComparisonResult)
    (h : r ∈ aggResults ir idx om rows) : r.status ≠ .ABSENT_IN_ORIGINAL := by
  unfold aggResults at h
  simp only [List.mem_flatMap] at h
  obtain ⟨p, _, hr⟩ := h
  exact emitAggGroup_status ir idx om p.1 p.2 r hr

theorem resultsFromTarget_status (processed : List String)
    (md : List (String × TargetEntry)) (r : ComparisonResult)
    (h : r ∈ resultsFromTarget processed md) : r.status = .ABSENT_IN_ORIGINAL := by
  unfold resultsFromTarget at h
  simp only [List.mem_filterMap] at h
  obtain ⟨p, _, hr⟩ := h
  split at hr
  · simp at hr
  · simp at hr; rw [← hr]

/-! ### Helper lemmas: the tolerance test in claim form -/

theorem ite_qCloseTo {α : Sort _} (a b : ℚ) (x y : α) :
    (if qCloseTo a b then x else y) = if |a - b| < 1 / 1000000 then x else y := by
  by_cases h : qCloseTo a b = true
  · rw [if_pos h, if_pos ((qCloseTo_iff a b).mp h)]
  · rw [if_neg (by simp [h]), if_neg (fun hc => h ((qCloseTo_iff a b).mpr hc))]

theorem ite_status_eq_equal (P : Prop) [Decidable P] :
    ((if P then ResultStatus.QUANTITY_EQUAL else ResultStatus.QUANTITY_DIFFERENT)
      = ResultStatus.QUANTITY_EQUAL) ↔ P := by
  split <;> simp_all

theorem ite_status_eq_different (P : Prop) [Decidable P] :
    ((if P then ResultStatus.QUANTITY_EQUAL else ResultStatus.QUANTITY_DIFFERENT)
      = ResultStatus.QUANTITY_DIFFERENT) ↔ ¬P := by
  split <;> simp_all

theorem exactMatchResult_status (om : Mapping) (row : Row) (q : ℚ)
    (e : TargetEntry) :
    (exactMatchResult om row q e).status =
      if |q - e.quantity| < 1 / 1000000 then .QUANTITY_EQUAL
      else .QUANTITY_DIFFERENT := by
  simp only [exactMatchResult]
  rw [ite_qCloseTo]

theorem explodeRow_valid_status (om : Mapping) (c : String) (te : TargetEntry)
    (row : Row) (q : ℚ)
    (hq : normalizeQuantity (rowGet row (om.quantity.getD "")) = some q) :
    (explodeRow om c te row).status =
      if |q - te.quantity| < 1 / 1000000 then .QUANTITY_EQUAL
      else .QUANTITY_DIFFERENT := by
  simp only [explodeRow, hq]
  rw [ite_qCloseTo]

theorem emit_mem_nonAggResults (ir : Bool) (idx : TargetIndexes) (om : Mapping)
    (rows : List Row) (row : Row) (r : ComparisonResult)
    (hrow : row ∈ rows) (h : classifyOriginalRow ir idx om row = .emit r) :
    r ∈ nonAggResults ir idx om rows := by
  unfold nonAggResults
  rw [List.mem_append]
  left
  rw [List.mem_filterMap]
  exact ⟨row, hrow, by rw [h]⟩

/-- Claim C4: for every source unit whose key matches exactly in the target
index, the emitted status is `QUANTITY_EQUAL` iff the absolute difference of
the compared quantities is strictly below `1e-6`, and `QUANTITY_DIFFERENT`
otherwise (so a difference of exactly `1e-6` or more is `DIFFERENT`).  In
the non-aggregated walk this is the per-row comparison; in the aggregated
walk it is the aggregate-level comparison, and when the aggregates differ
each exploded row is compared, by the same rule, against the same target
aggregate. -/
theorem C4_tolerance_boundary (ir : Bool) (idx : TargetIndexes) (om : Mapping)
    (row : Row) (q : ℚ) (e : TargetEntry) (rows : List Row)
    (hc : jsStr (rowGet row (om.code.getD "")) ≠ "")
    (hn : normalizeQuantity (rowGet row (om.quantity.getD "")) = some q)
    (hm : jmGet idx.mapData
      (getKey ir (jsStr (rowGet row (om.code.getD ""))) (roleValue row om.revision))
      = some e) :
    (classifyOriginalRow ir idx om row = .emit (exactMatchResult om row q e)) ∧
    ((exactMatchResult om row q e).status = .QUANTITY_EQUAL ↔
      |q - e.quantity| < 1 / 1000000) ∧
    ((exactMatchResult om row q e).status = .QUANTITY_DIFFERENT ↔
      ¬(|q - e.quantity| < 1 / 1000000)) ∧
    (row ∈ rows → exactMatchResult om row q e ∈ nonAggResults ir idx om rows) ∧
    (∀ (key : String) (g : OrigGroup) (te : TargetEntry) (r0 : Row)
      (rest : List Row), g.rows = r0 :: rest → jmGet idx.mapData key = some te →
      ((|g.quantity - te.quantity| < 1 / 1000000 →
        emitAggGroup ir idx om key g =
          [groupEqualResult (jsStr (rowGet r0 (om.code.getD ""))) g te]) ∧
       (¬(|g.quantity - te.quantity| < 1 / 1000000) →
        emitAggGroup ir idx om key g =
          g.rows.map (explodeRow om (jsStr (rowGet r0 (om.code.getD ""))) te) ∧
        ∀ (row' : Row) (q' : ℚ),
          normalizeQuantity (rowGet row' (om.quantity.getD "")) = some q' →
          ((explodeRow om (jsStr (rowGet r0 (om.code.getD ""))) te row').status
              = .QUANTITY_EQUAL ↔ |q' - te.quantity| < 1 / 1000000)))) := by
  refine ⟨classify_of_match ir idx om row q e hc hn hm, ?_, ?_, ?_, ?_⟩
  · rw [exactMatchResult_status]
    exact ite_status_eq_equal _
  · rw [exactMatchResult_status]
    exact ite_status_eq_different _
  · intro hrow
    exact emit_mem_nonAggResults ir idx om rows row _ hrow
      (classify_of_match ir idx om row q e hc hn hm)
  · intro key g te r0 rest hrows hm'
    constructor
    · intro hclose
      exact emitAgg_of_match_close ir idx om key g r0 rest te hrows hm'
        ((qCloseTo_iff _ _).mpr hclose)
    · intro hfar
      refine ⟨emitAgg_of_match_far ir idx om key g r0 rest te hrows hm' ?_, ?_⟩
      · rw [← Bool.not_eq_true]
        exact fun hcl => hfar ((qCloseTo_iff _ _).mp hcl)
      · intro row' q' hq'
        rw [explodeRow_valid_status om _ te row' q' hq']
        exact ite_status_eq_equal _

/-- Witness for C4: source quantity `100.0000005` against target `100` is
`QUANTITY_EQUAL` (difference `5e-7 < 1e-6`), while `100.00001` against `100`
is `QUANTITY_DIFFERENT` (difference `1e-5 ≥ 1e-6`). -/
theorem C4_tolerance_boundary_witness :
    (jsStr (rowGet [("c", Cell.str "A"), ("q", Cell.str "100,0000005")]
      ((⟨some "c", some "q", none, none, none⟩ : Mapping).code.getD "")) ≠ "") ∧
    (normalizeQuantity (rowGet [("c", Cell.str "A"), ("q", Cell.str "100,0000005")]
      ((⟨some "c", some "q", none, none, none⟩ : Mapping).quantity.getD ""))
      = some (nq 1000000005 10000000)) ∧
    (jmGet (buildTargetIndexes true ⟨some "c", some "q", none, none, none⟩
        [[("c", Cell.str "A"), ("q", Cell.str "100")]]).mapData
      (getKey true "A" none) = some ⟨nq 100 1, none, none, none⟩) ∧
    (classifyOriginalRow true
      (buildTargetIndexes true ⟨some "c", some "q", none, none, none⟩
        [[("c", Cell.str "A"), ("q", Cell.str "100")]])
      ⟨some "c", some "q", none, none, none⟩
      [("c", Cell.str "A"), ("q", Cell.str "100,0000005")]
      = .emit (exactMatchResult ⟨some "c", some "q", none, none, none⟩
          [("c", Cell.str "A"), ("q", Cell.str "100,0000005")]
          (nq 1000000005 10000000) ⟨nq 100 1, none, none, none⟩)) ∧
    ((exactMatchResult ⟨some "c", some "q", none, none, none⟩
        [("c", Cell.str "A"), ("q", Cell.str "100,0000005")]
        (nq 1000000005 10000000) ⟨nq 100 1, none, none, none⟩).status
      = .QUANTITY_EQUAL) ∧
    ((exactMatchResult ⟨some "c", some "q", none, none, none⟩
        [("c", Cell.str "A"), ("q", Cell.str "100,00001")]
        (nq 10000001 100000) ⟨nq 100 1, none, none, none⟩).status
      = .QUANTITY_DIFFERENT) := by
  refine ⟨by decide, by decide, by decide, ?_, by decide, by decide⟩
  exact (C4_tolerance_boundary true
    (buildTargetIndexes true ⟨some "c", some "q", none, none, none⟩
      [[("c", Cell.str "A"), ("q", Cell.str "100")]])
    ⟨some "c", some "q", none, none, none⟩
    [("c", Cell.str "A"), ("q", Cell.str "100,0000005")]
    (nq 1000000005 10000000) ⟨nq 100 1, none, none, none⟩ []
    (by decide) (by decide) (by decide)).1

/-! ### Helper lemmas: aggregated groups -/

theorem addRowToGroups_rows_ne_nil (ir : Bool) (om : Mapping)
    (m : List (String × OrigGroup)) (row : Row)
    (h : ∀ p ∈ m, p.2.rows ≠ []) :
    ∀ p ∈ addRowToGroups ir om m row, p.2.rows ≠ [] := by
  intro p hp
  simp only [addRowToGroups] at hp
  by_cases hc : (jsStr (rowGet row (om.code.getD "")) == "") = true
  · rw [if_pos hc] at hp
    exact h p hp
  · rw [if_neg hc] at hp
    by_cases hh : jmHas m (getKey ir (jsStr (rowGet row (om.code.getD "")))
        (roleValue row om.revision)) = true
    · rw [if_pos hh] at hp
      simp only [jmUpdate, List.mem_map] at hp
      obtain ⟨q, hq, hpq⟩ := hp
      by_cases hk : (q.1 == getKey ir (jsStr (rowGet row (om.code.getD "")))
          (roleValue row om.revision)) = true
      · rw [if_pos hk] at hpq
        rw [← hpq]
        simp
      · rw [if_neg hk] at hpq
        rw [← hpq]
        exact h q hq
    · rw [if_neg hh] at hp
      rw [List.mem_append] at hp
      rcases hp with hp | hp
      · exact h p hp
      · simp only [List.mem_singleton] at hp
        rw [hp]
        simp

theorem buildOrigGroups_rows_ne_nil (ir : Bool) (om : Mapping) (rows : List Row) :
    ∀ p ∈ buildOrigGroups ir om rows, p.2.rows ≠ [] := by
  suffices h : ∀ (m : List (String × OrigGroup)), (∀ p ∈ m, p.2.rows ≠ []) →
      ∀ p ∈ rows.foldl (addRowToGroups ir om) m, p.2.rows ≠ [] by
    exact h [] (by intro p hp; cases hp)
  induction rows with
  | nil => intro m hm; exact hm
  | cons row rest ih =>
    intro m hm
    exact ih (addRowToGroups ir om m row) (addRowToGroups_rows_ne_nil ir om m row hm)

theorem mem_flatMap_infix {α β : Type} (l : List α) (f : α → List β) (x : α)
    (hx : x ∈ l) : f x <:+: l.flatMap f := by
  induction l with
  | nil => cases hx
  | cons a t ih =>
    rw [List.flatMap_cons]
    rcases List.mem_cons.mp hx with h | h
    · rw [h]
      exact (List.prefix_append _ _).isInfix
    · exact (ih h).trans (List.suffix_append _ _).isInfix

theorem emitAggGroup_infix_aggResults (ir : Bool) (idx : TargetIndexes)
    (om : Mapping) (rows : List Row) (key : String) (g : OrigGroup)
    (hg : (key, g) ∈ buildOrigGroups ir om rows) :
    emitAggGroup ir idx om key g <:+: aggResults ir idx om rows := by
  unfold aggResults
  exact mem_flatMap_infix (buildOrigGroups ir om rows)
    (fun p => emitAggGroup ir idx om p.1 p.2) (key, g) hg

/-- Claim C3: in aggregated mode, a source key group with an exact target
match whose aggregate quantity differs from the target aggregate by `1e-6`
or more explodes: one result per original row of the group, each row
compared individually against the same target aggregate quantity —
`INVALID_QUANTITY` when that row's own quantity is unparseable, otherwise
`QUANTITY_EQUAL`/`QUANTITY_DIFFERENT` by the `1e-6` test — and this block
of per-row results is emitted inside the aggregated output. -/
theorem C3_aggregate_explosion (ir : Bool) (idx : TargetIndexes) (om : Mapping)
    (rows : List Row) (key : String) (g : OrigGroup) (te : TargetEntry)
    (hg : (key, g) ∈ buildOrigGroups ir om rows)
    (hm : jmGet idx.mapData key = some te)
    (hfar : ¬(|g.quantity - te.quantity| < 1 / 1000000)) :
    ∃ r0 rest, g.rows = r0 :: rest ∧
    emitAggGroup ir idx om key g =
      g.rows.map (explodeRow om (jsStr (rowGet r0 (om.code.getD ""))) te) ∧
    (emitAggGroup ir idx om key g).length = g.rows.length ∧
    (∀ row ∈ g.rows,
      (explodeRow om (jsStr (rowGet r0 (om.code.getD ""))) te row).targetQuantity
        = some te.quantity ∧
      (normalizeQuantity (rowGet row (om.quantity.getD "")) = none →
        (explodeRow om (jsStr (rowGet r0 (om.code.getD ""))) te row).status
          = .INVALID_QUANTITY) ∧
      (∀ q', normalizeQuantity (rowGet row (om.quantity.getD "")) = some q' →
        (explodeRow om (jsStr (rowGet r0 (om.code.getD ""))) te row).status
          = if |q' - te.quantity| < 1 / 1000000 then .QUANTITY_EQUAL
            else .QUANTITY_DIFFERENT)) ∧
    emitAggGroup ir idx om key g <:+: aggResults ir idx om rows := by
  obtain ⟨r0, rest, hrows⟩ :
      ∃ r0 rest, g.rows = r0 :: rest := by
    cases hr : g.rows with
    | nil => exact absurd hr (buildOrigGroups_rows_ne_nil ir om rows (key, g) hg)
    | cons a t => exact ⟨a, t, rfl⟩
  have hfarb : qCloseTo g.quantity te.quantity = false := by
    rw [← Bool.not_eq_true]
    exact fun hcl => hfar ((qCloseTo_iff _ _).mp hcl)
  refine ⟨r0, rest, hrows,
    emitAgg_of_match_far ir idx om key g r0 rest te hrows hm hfarb, ?_, ?_,
    emitAggGroup_infix_aggResults ir idx om rows key g hg⟩
  · rw [emitAgg_of_match_far ir idx om key g r0 rest te hrows hm hfarb]
    exact List.length_map _ _
  · intro row _
    refine ⟨?_, ?_, ?_⟩
    · cases hq : normalizeQuantity (rowGet row (om.quantity.getD "")) <;>
        simp [explodeRow, hq]
    · intro hq
      simp [explodeRow, hq]
    · intro q' hq'
      exact explodeRow_valid_status om _ te row q' hq'

/-- Witness for C3: source rows `A:3` and `A:4` (aggregate 7) against target
`A:10` explode into exactly two `QUANTITY_DIFFERENT` results comparing 3
against 10 and 4 against 10. -/
theorem C3_aggregate_explosion_witness :
    (("A", (⟨nq 7 1, none, none, none,
        [[("c", Cell.str "A"), ("q", Cell.str "3")],
         [("c", Cell.str "A"), ("q", Cell.str "4")]]⟩ : OrigGroup)) ∈
      buildOrigGroups true ⟨some "c", some "q", none, none, none⟩
        [[("c", Cell.str "A"), ("q", Cell.str "3")],
         [("c", Cell.str "A"), ("q", Cell.str "4")]]) ∧
    (jmGet (buildTargetIndexes true ⟨some "c", some "q", none, none, none⟩
        [[("c", Cell.str "A"), ("q", Cell.str "10")]]).mapData "A"
      = some ⟨nq 10 1, none, none, none⟩) ∧
    (¬(|(nq 7 1 : ℚ) - (⟨nq 10 1, none, none, none⟩ : TargetEntry).quantity|
        < 1 / 1000000)) ∧
    ((emitAggGroup true
        (buildTargetIndexes true ⟨some "c", some "q", none, none, none⟩
          [[("c", Cell.str "A"), ("q", Cell.str "10")]])
        ⟨some "c", some "q", none, none, none⟩ "A"
        ⟨nq 7 1, none, none, none,
          [[("c", Cell.str "A"), ("q", Cell.str "3")],
           [("c", Cell.str "A"), ("q", Cell.str "4")]]⟩).map
      (fun r => (r.originalQuantity, r.targetQuantity, r.status)) =
      [(some (.num (nq 3 1)), some (nq 10 1), .QUANTITY_DIFFERENT),
       (some (.num (nq 4 1)), some (nq 10 1), .QUANTITY_DIFFERENT)]) ∧
    (∃ r0 rest,
      (⟨nq 7 1, none, none, none,
        [[("c", Cell.str "A"), ("q", Cell.str "3")],
         [("c", Cell.str "A"), ("q", Cell.str "4")]]⟩ : OrigGroup).rows
        = r0 :: rest ∧
      emitAggGroup true
        (buildTargetIndexes true ⟨some "c", some "q", none, none, none⟩
          [[("c", Cell.str "A"), ("q", Cell.str "10")]])
        ⟨some "c", some "q", none, none, none⟩ "A"
        ⟨nq 7 1, none, none, none,
          [[("c", Cell.str "A"), ("q", Cell.str "3")],
           [("c", Cell.str "A"), ("q", Cell.str "4")]]⟩ =
        (⟨nq 7 1, none, none, none,
          [[("c", Cell.str "A"), ("q", Cell.str "3")],
           [("c", Cell.str "A"), ("q", Cell.str "4")]]⟩ : OrigGroup).rows.map
          (explodeRow ⟨some "c", some "q", none, none, none⟩
            (jsStr (rowGet r0 ((⟨some "c", some "q", none, none, none⟩ :
              Mapping).code.getD ""))) ⟨nq 10 1, none, none, none⟩)) := by
  have hfar : ¬(|(nq 7 1 : ℚ) - (⟨nq 10 1, none, none, none⟩ : TargetEntry).quantity|
      < 1 / 1000000) := by
    simp only [TargetEntry.mk.injEq]
    rw [nq_eq_div, nq_eq_div]
    norm_num
  refine ⟨by decide, by decide, hfar, by decide, ?_⟩
  obtain ⟨r0, rest, h1, h2, _⟩ := C3_aggregate_explosion true
    (buildTargetIndexes true ⟨some "c", some "q", none, none, none⟩
      [[("c", Cell.str "A"), ("q", Cell.str "10")]])
    ⟨some "c", some "q", none, none, none⟩
    [[("c", Cell.str "A"), ("q", Cell.str "3")],
     [("c", Cell.str "A"), ("q", Cell.str "4")]] "A"
    ⟨nq 7 1, none, none, none,
      [[("c", Cell.str "A"), ("q", Cell.str "3")],
       [("c", Cell.str "A"), ("q", Cell.str "4")]]⟩
    ⟨nq 10 1, none, none, none⟩ (by decide) (by decide) hfar
  exact ⟨r0, rest, h1, h2⟩

/-- Claim C10 (implicit): in aggregated mode, a source key group with an
exact target match whose aggregate quantity is within `1e-6` of the target
aggregate emits exactly one `QUANTITY_EQUAL` result for the whole group —
in particular no `INVALID_QUANTITY` result for any unparseable-quantity row
inside the group. -/
theorem C10_aggregate_equal_single (ir : Bool) (idx : TargetIndexes)
    (om : Mapping) (rows : List Row) (key : String) (g : OrigGroup)
    (te : TargetEntry)
    (hg : (key, g) ∈ buildOrigGroups ir om rows)
    (hm : jmGet idx.mapData key = some te)
    (hclose : |g.quantity - te.quantity| < 1 / 1000000) :
    ∃ r0 rest, g.rows = r0 :: rest ∧
    emitAggGroup ir idx om key g =
      [groupEqualResult (jsStr (rowGet r0 (om.code.getD ""))) g te] ∧
    (groupEqualResult (jsStr (rowGet r0 (om.code.getD ""))) g te).status
      = .QUANTITY_EQUAL ∧
    (groupEqualResult (jsStr (rowGet r0 (om.code.getD ""))) g te).originalQuantity
      = some (.num g.quantity) ∧
    (∀ r ∈ emitAggGroup ir idx om key g, r.status ≠ .INVALID_QUANTITY) ∧
    emitAggGroup ir idx om key g <:+: aggResults ir idx om rows := by
  obtain ⟨r0, rest, hrows⟩ : ∃ r0 rest, g.rows = r0 :: rest := by
    cases hr : g.rows with
    | nil => exact absurd hr (buildOrigGroups_rows_ne_nil ir om rows (key, g) hg)
    | cons a t => exact ⟨a, t, rfl⟩
  have hcb : qCloseTo g.quantity te.quantity = true := (qCloseTo_iff _ _).mpr hclose
  have heq := emitAgg_of_match_close ir idx om key g r0 rest te hrows hm hcb
  refine ⟨r0, rest, hrows, heq, rfl, rfl, ?_,
    emitAggGroup_infix_aggResults ir idx om rows key g hg⟩
  intro r hr
  rw [heq] at hr
  simp only [List.mem_singleton] at hr
  rw [hr]
  simp [groupEqualResult]

/-- Witness for C10: the group of rows `A:"abc"` (unparseable) and `A:"7"`
has aggregate 7 matching target `A:7`, so exactly one `QUANTITY_EQUAL`
result is emitted and no `INVALID_QUANTITY` surfaces for the unparseable
row. -/
theorem C10_aggregate_equal_single_witness :
    (("A", (⟨nq 7 1, none, none, none,
        [[("c", Cell.str "A"), ("q", Cell.str "abc")],
         [("c", Cell.str "A"), ("q", Cell.str "7")]]⟩ : OrigGroup)) ∈
      buildOrigGroups true ⟨some "c", some "q", none, none, none⟩
        [[("c", Cell.str "A"), ("q", Cell.str "abc")],
         [("c", Cell.str "A"), ("q", Cell.str "7")]]) ∧
    (jmGet (buildTargetIndexes true ⟨some "c", some "q", none, none, none⟩
        [[("c", Cell.str "A"), ("q", Cell.str "7")]]).mapData "A"
      = some ⟨nq 7 1, none, none, none⟩) ∧
    (|(nq 7 1 : ℚ) - (nq 7 1 : ℚ)| < 1 / 1000000) ∧
    (∃ r0 rest,
      (⟨nq 7 1, none, none, none,
        [[("c", Cell.str "A"), ("q", Cell.str "abc")],
         [("c", Cell.str "A"), ("q", Cell.str "7")]]⟩ : OrigGroup).rows
        = r0 :: rest ∧
      emitAggGroup true
        (buildTargetIndexes true ⟨some "c", some "q", none, none, none⟩
          [[("c", Cell.str "A"), ("q", Cell.str "7")]])
        ⟨some "c", some "q", none, none, none⟩ "A"
        ⟨nq 7 1, none, none, none,
          [[("c", Cell.str "A"), ("q", Cell.str "abc")],
           [("c", Cell.str "A"), ("q", Cell.str "7")]]⟩ =
        [groupEqualResult (jsStr (rowGet r0 ((⟨some "c", some "q", none, none,
          none⟩ : Mapping).code.getD "")))
          ⟨nq 7 1, none, none, none,
            [[("c", Cell.str "A"), ("q", Cell.str "abc")],
             [("c", Cell.str "A"), ("q", Cell.str "7")]]⟩
          ⟨nq 7 1, none, none, none⟩]) ∧
    ((emitAggGroup true
        (buildTargetIndexes true ⟨some "c", some "q", none, none, none⟩
          [[("c", Cell.str "A"), ("q", Cell.str "7")]])
        ⟨some "c", some "q", none, none, none⟩ "A"
        ⟨nq 7 1, none, none, none,
          [[("c", Cell.str "A"), ("q", Cell.str "abc")],
           [("c", Cell.str "A"), ("q", Cell.str "7")]]⟩).map (·.status)
      = [.QUANTITY_EQUAL]) := by
  have hclose : |(nq 7 1 : ℚ) - (nq 7 1 : ℚ)| < 1 / 1000000 := by
    rw [nq_eq_div]
    norm_num
  refine ⟨by decide, by decide, hclose, ?_, by decide⟩
  obtain ⟨r0, rest, h1, h2, _⟩ := C10_aggregate_equal_single true
    (buildTargetIndexes true ⟨some "c", some "q", none, none, none⟩
      [[("c", Cell.str "A"), ("q", Cell.str "7")]])
    ⟨some "c", some "q", none, none, none⟩
    [[("c", Cell.str "A"), ("q", Cell.str "abc")],
     [("c", Cell.str "A"), ("q", Cell.str "7")]] "A"
    ⟨nq 7 1, none, none, none,
      [[("c", Cell.str "A"), ("q", Cell.str "abc")],
       [("c", Cell.str "A"), ("q", Cell.str "7")]]⟩
    ⟨nq 7 1, none, none, none⟩ (by decide) (by decide) hclose
  exact ⟨r0, rest, h1, h2⟩

/-- Claim C1: for every pair of input tables, mappings and options, the
`ABSENT_IN_ORIGINAL` results emitted by `compareData` with `aggregate = true`
are identical (as a list, hence as a multiset, with the same keys,
quantities, descriptions, revisions and categories) to those emitted with
`aggregate = false`: the target-only-absence output never depends on the
aggregation display mode. -/
theorem C1_absent_in_original_mode_independent
    (originalData targetData : List Row) (mappings : Mappings)
    (options : CompareOptions) :
    (compareData originalData targetData mappings true options).map
      (fun l => l.filter (fun r => r.status == .ABSENT_IN_ORIGINAL)) =
    (compareData originalData targetData mappings false options).map
      (fun l => l.filter (fun r => r.status == .ABSENT_IN_ORIGINAL)) := by
  unfold compareData
  split
  · rfl
  · simp only [Except.map]
    congr 1
    rw [List.filter_append, List.filter_append]
    congr 1
    rw [List.filter_eq_nil_iff.mpr, List.filter_eq_nil_iff.mpr]
    · intro r hr
      simp only [beq_iff_eq]
      exact nonAggResults_status _ _ _ _ r hr
    · intro r hr
      simp only [beq_iff_eq]
      exact aggResults_status _ _ _ _ r hr


/-! ### Helper lemmas: membership in maps and in the processed-key set -/

theorem jmGet_mem {α : Type} (m : List (String × α)) (k : String) (v : α)
    (h : jmGet m k = some v) : (k, v) ∈ m := by
  unfold jmGet at h
  cases hf : List.find? (fun p => p.1 == k) m with
  | none => rw [hf] at h; cases h
  | some a =>
    rw [hf] at h
    simp only [Option.map_some'] at h
    have hmem := List.mem_of_find?_eq_some hf
    have hbeq := List.find?_some hf
    have hk : a.1 = k := by simpa using hbeq
    cases a with
    | mk a1 a2 =>
      simp only at hk h
      injection h with h2
      rw [← hk, ← h2]
      exact hmem

theorem mem_setAdd_of_mem (s : List String) (k x : String) (h : x ∈ s) :
    x ∈ setAdd s k := by
  unfold setAdd
  split
  · exact h
  · exact List.mem_append_left _ h

theorem mem_setAdd_self (s : List String) (k : String) : k ∈ setAdd s k := by
  unfold setAdd
  split
  · next h => exact List.mem_of_elem_eq_true h
  · exact List.mem_append_right _ (List.mem_singleton.mpr rfl)

theorem mem_foldl_setAdd_of_mem {β : Type} (f : β → String) (l : List β)
    (s : List String) (x : String) (h : x ∈ s) :
    x ∈ l.foldl (fun s2 e => setAdd s2 (f e)) s := by
  induction l generalizing s with
  | nil => exact h
  | cons a t ih => exact ih (setAdd s (f a)) (mem_setAdd_of_mem s (f a) x h)

theorem mem_foldl_setAdd_self {β : Type} (f : β → String) (l : List β)
    (s : List String) (e : β) (he : e ∈ l) :
    f e ∈ l.foldl (fun s2 e2 => setAdd s2 (f e2)) s := by
  induction l generalizing s with
  | nil => cases he
  | cons a t ih =>
    rcases List.mem_cons.mp he with h | h
    · rw [h]
      exact mem_foldl_setAdd_of_mem f t (setAdd s (f a)) (f a)
        (mem_setAdd_self s (f a))
    · exact ih (setAdd s (f a)) h

theorem dpkStep_mono (ir : Bool) (idx : TargetIndexes) (s : List String)
    (p : String × (String × Option String)) (x : String) (h : x ∈ s) :
    x ∈ dpkStep ir idx s p := by
  unfold dpkStep
  split
  · exact mem_setAdd_of_mem s p.1 x h
  · split
    · exact mem_foldl_setAdd_of_mem _ _ s x h
    · exact h

theorem foldl_dpkStep_mono (ir : Bool) (idx : TargetIndexes)
    (entries : List (String × (String × Option String))) (s : List String)
    (x : String) (h : x ∈ s) : x ∈ entries.foldl (dpkStep ir idx) s := by
  induction entries generalizing s with
  | nil => exact h
  | cons a t ih => exact ih (dpkStep ir idx s a) (dpkStep_mono ir idx s a x h)

theorem dpk_processes_revisions (ir : Bool) (idx : TargetIndexes)
    (entries : List (String × (String × Option String))) (s : List String)
    (p : String × (String × Option String)) (l : List RevisionEntry)
    (hp : p ∈ entries)
    (hmiss : jmHas idx.mapData p.1 = false)
    (hrv : (if ir then none else jmGet idx.codeToRevisions p.2.1) = some l) :
    ∀ e ∈ l, getKey ir p.2.1 e.revision ∈ entries.foldl (dpkStep ir idx) s := by
  induction entries generalizing s with
  | nil => cases hp
  | cons a t ih =>
    intro e he
    rcases List.mem_cons.mp hp with h | h
    · subst h
      cases l with
      | nil => cases he
      | cons e0 rest0 =>
        have hstep : dpkStep ir idx s p =
            ((e0 :: rest0) : List RevisionEntry).foldl
              (fun s2 rev => setAdd s2 (getKey ir p.2.1 rev.revision)) s := by
          unfold dpkStep
          rw [if_neg (by simp [hmiss]), hrv]
        simp only [List.foldl_cons]
        rw [hstep]
        exact foldl_dpkStep_mono ir idx t _ _
          (mem_foldl_setAdd_self (fun rev => getKey ir p.2.1 rev.revision)
            (e0 :: rest0) s e he)
    · simp only [List.foldl_cons]
      exact ih (dpkStep ir idx s a) h e he

/-- The target-only-absence pass in filter form: it emits exactly one record
per target-index entry whose key was not marked processed, in index order. -/
theorem resultsFromTarget_eq_filter (processed : List String)
    (md : List (String × TargetEntry)) :
    resultsFromTarget processed md =
      (md.filter (fun p => !(processed.contains p.1))).map (fun p =>
        { originalCode := none, originalQuantity := none,
          originalDescription := none, originalRevision := none,
          originalCategory := none,
          targetCode := some (keyCode p.1),
          targetQuantity := some p.2.quantity,
          targetDescription := p.2.description,
          targetRevision := p.2.revision,
          targetCategory := p.2.category,
          status := .ABSENT_IN_ORIGINAL }) := by
  induction md with
  | nil => rfl
  | cons a t ih =>
    unfold resultsFromTarget at ih ⊢
    rw [List.filterMap_cons, List.filter_cons]
    cases h : processed.contains a.1 with
    | true =>
      simp only [h, Bool.not_true]
      exact ih
    | false =>
      simp only [h, Bool.not_false, List.map_cons]
      exact congrArg (List.cons _) ih

/-- Counterexample to claim C2 as stated: with `ignoreRevision = false`, the
source row `{code "X", qty "abc", revision "A"}` has no exact key in the
target index while bare code `"X"` has one entry in the secondary index
(revision "B"), yet `compareData` emits no `REVISION_DIFFERENT` result: the
unparseable quantity is classified `INVALID_QUANTITY` before the revision
fallback is consulted, and the whole output is that single record. -/
theorem C2_counterexample :
    (jsStr (rowGet ([("c", Cell.str "X"), ("q", Cell.str "abc"),
        ("r", Cell.str "A")] : Row)
      ((⟨some "c", some "q", none, some "r", none⟩ : Mapping).code.getD "")) ≠ "") ∧
    (jmGet (buildTargetIndexes false ⟨some "c", some "q", none, some "r", none⟩
        [[("c", Cell.str "X"), ("q", Cell.str "1"), ("r", Cell.str "B")]]).mapData
      (getKey false "X" (some "A")) = none) ∧
    (jmGet (buildTargetIndexes false ⟨some "c", some "q", none, some "r", none⟩
        [[("c", Cell.str "X"), ("q", Cell.str "1"),
          ("r", Cell.str "B")]]).codeToRevisions "X"
      = some [⟨some "B", none, nq 1 1, none⟩]) ∧
    (compareData [[("c", Cell.str "X"), ("q", Cell.str "abc"), ("r", Cell.str "A")]]
      [[("c", Cell.str "X"), ("q", Cell.str "1"), ("r", Cell.str "B")]]
      ⟨⟨some "c", some "q", none, some "r", none⟩,
       ⟨some "c", some "q", none, some "r", none⟩⟩
      false ⟨false⟩
      = .ok [invalidRowResult ⟨some "c", some "q", none, some "r", none⟩
          [("c", Cell.str "X"), ("q", Cell.str "abc"), ("r", Cell.str "A")]]) ∧
    ((invalidRowResult ⟨some "c", some "q", none, some "r", none⟩
        [("c", Cell.str "X"), ("q", Cell.str "abc"), ("r", Cell.str "A")]).status
      = .INVALID_QUANTITY) ∧
    ((invalidRowResult ⟨some "c", some "q", none, some "r", none⟩
        [("c", Cell.str "X"), ("q", Cell.str "abc"), ("r", Cell.str "A")]).status
      ≠ .REVISION_DIFFERENT) := by decide

/-- Claim C2 (amended): with `ignoreRevision = false`, (a) every source row
with a parseable quantity, non-empty code, no exact key in the target index
and a non-empty secondary-index entry list for its bare code is classified
`REVISION_DIFFERENT`, pairing the source data with the first entry of that
code's revision list, and that record is emitted by the non-aggregated walk;
(b) likewise every aggregated key group (its bare code being that of its
first row); (c) every revision-variant target key of the code recorded in
the source check index at such a key is marked processed by the definitive
pass, so no `ABSENT_IN_ORIGINAL` record is emitted for it. -/
theorem C2_revision_fallback_amended (idx : TargetIndexes) (om : Mapping)
    (rows : List Row) :
    (∀ (row : Row) (q : ℚ) (e : RevisionEntry) (rest : List RevisionEntry),
      jsStr (rowGet row (om.code.getD "")) ≠ "" →
      normalizeQuantity (rowGet row (om.quantity.getD "")) = some q →
      jmGet idx.mapData (getKey false (jsStr (rowGet row (om.code.getD "")))
        (roleValue row om.revision)) = none →
      jmGet idx.codeToRevisions (jsStr (rowGet row (om.code.getD "")))
        = some (e :: rest) →
      classifyOriginalRow false idx om row = .emit (revisionFallbackResult om row q e) ∧
      (revisionFallbackResult om row q e).status = .REVISION_DIFFERENT ∧
      (revisionFallbackResult om row q e).targetQuantity = some e.quantity ∧
      (revisionFallbackResult om row q e).targetRevision = e.revision ∧
      (row ∈ rows →
        revisionFallbackResult om row q e ∈ nonAggResults false idx om rows)) ∧
    (∀ (key : String) (g : OrigGroup) (r0 : Row) (rest : List Row)
      (e : RevisionEntry) (erest : List RevisionEntry),
      (key, g) ∈ buildOrigGroups false om rows →
      g.rows = r0 :: rest →
      jmGet idx.mapData key = none →
      jmGet idx.codeToRevisions (jsStr (rowGet r0 (om.code.getD "")))
        = some (e :: erest) →
      emitAggGroup false idx om key g =
        [groupRevisionResult (jsStr (rowGet r0 (om.code.getD ""))) g e] ∧
      emitAggGroup false idx om key g <:+: aggResults false idx om rows) ∧
    (∀ (key code : String) (rev' : Option String) (l : List RevisionEntry),
      jmGet (buildCheckMap false om rows) key = some (code, rev') →
      jmGet idx.mapData key = none →
      jmGet idx.codeToRevisions code = some l →
      ∀ e ∈ l,
        getKey false code e.revision ∈ definitiveProcessedKeys false idx om rows ∧
        (definitiveProcessedKeys false idx om rows).contains
          (getKey false code e.revision) = true) := by
  refine ⟨?_, ?_, ?_⟩
  · intro row q e rest hc hn hm hrv
    have hrv' : (if false then none else
        jmGet idx.codeToRevisions (jsStr (rowGet row (om.code.getD ""))))
        = some (e :: rest) := by simpa using hrv
    have hcl := classify_of_revision false idx om row q e rest hc hn hm hrv'
    exact ⟨hcl, rfl, rfl, rfl,
      fun hrow => emit_mem_nonAggResults false idx om rows row _ hrow hcl⟩
  · intro key g r0 rest e erest hg hrows hm hrv
    have hrv' : (if false then none else
        jmGet idx.codeToRevisions (jsStr (rowGet r0 (om.code.getD ""))))
        = some (e :: erest) := by simpa using hrv
    exact ⟨emitAgg_of_revision false idx om key g r0 rest e erest hrows hm hrv',
      emitAggGroup_infix_aggResults false idx om rows key g hg⟩
  · intro key code rev' l hck hm hrv e he
    have hp : (key, (code, rev')) ∈ buildCheckMap false om rows :=
      jmGet_mem _ key (code, rev') hck
    have hmiss : jmHas idx.mapData key = false := by
      simp [jmHas, hm]
    have hrv' : (if false then none else jmGet idx.codeToRevisions code)
        = some l := by simpa using hrv
    have hmem : getKey false code e.revision ∈
        definitiveProcessedKeys false idx om rows := by
      unfold definitiveProcessedKeys
      exact dpk_processes_revisions false idx (buildCheckMap false om rows) []
        (key, (code, rev')) l hp hmiss hrv' e he
    exact ⟨hmem, List.elem_eq_true_of_mem hmem⟩

/-- Witness for the amended C2 at the spec's revision-fallback scenario:
source `{X, 10, rev A}` against a target holding only `{X, 10, rev B}`
yields the `REVISION_DIFFERENT` classification paired with the revision-B
entry, and the target key `X::B` is marked processed (so no
`ABSENT_IN_ORIGINAL` row for X is produced). -/
theorem C2_revision_fallback_amended_witness :
    (normalizeQuantity (rowGet ([("c", Cell.str "X"), ("q", Cell.str "10"),
        ("r", Cell.str "A")] : Row)
      ((⟨some "c", some "q", none, some "r", none⟩ : Mapping).quantity.getD ""))
      = some (nq 10 1)) ∧
    (classifyOriginalRow false
      (buildTargetIndexes false ⟨some "c", some "q", none, some "r", none⟩
        [[("c", Cell.str "X"), ("q", Cell.str "10"), ("r", Cell.str "B")]])
      ⟨some "c", some "q", none, some "r", none⟩
      [("c", Cell.str "X"), ("q", Cell.str "10"), ("r", Cell.str "A")]
      = .emit (revisionFallbackResult ⟨some "c", some "q", none, some "r", none⟩
          [("c", Cell.str "X"), ("q", Cell.str "10"), ("r", Cell.str "A")]
          (nq 10 1) ⟨some "B", none, nq 10 1, none⟩)) ∧
    (getKey false "X" (some "B") ∈ definitiveProcessedKeys false
      (buildTargetIndexes false ⟨some "c", some "q", none, some "r", none⟩
        [[("c", Cell.str "X"), ("q", Cell.str "10"), ("r", Cell.str "B")]])
      ⟨some "c", some "q", none, some "r", none⟩
      [[("c", Cell.str "X"), ("q", Cell.str "10"), ("r", Cell.str "A")]]) := by
  refine ⟨by decide, ?_, ?_⟩
  · exact ((C2_revision_fallback_amended
      (buildTargetIndexes false ⟨some "c", some "q", none, some "r", none⟩
        [[("c", Cell.str "X"), ("q", Cell.str "10"), ("r", Cell.str "B")]])
      ⟨some "c", some "q", none, some "r", none⟩
      [[("c", Cell.str "X"), ("q", Cell.str "10"), ("r", Cell.str "A")]]).1
      [("c", Cell.str "X"), ("q", Cell.str "10"), ("r", Cell.str "A")]
      (nq 10 1) ⟨some "B", none, nq 10 1, none⟩ []
      (by decide) (by decide) (by decide) (by decide)).1
  · exact (((C2_revision_fallback_amended
      (buildTargetIndexes false ⟨some "c", some "q", none, some "r", none⟩
        [[("c", Cell.str "X"), ("q", Cell.str "10"), ("r", Cell.str "B")]])
      ⟨some "c", some "q", none, some "r", none⟩
      [[("c", Cell.str "X"), ("q", Cell.str "10"), ("r", Cell.str "A")]]).2.2
      (getKey false "X" (some "A")) "X" (some "A")
      [⟨some "B", none, nq 10 1, none⟩]
      (by decide) (by decide) (by decide))
      ⟨some "B", none, nq 10 1, none⟩ (by decide)).1

/-! ### Helper lemmas: the merge pass -/

/-- The rows that actually contribute to a merged sum: the first occurrence
of each distinct code (specification-side rendering of the source's
`processedCodes` set). -/
def firstPerCodeAux (cc : String) (seen : List String) : List Row → List Row
  | [] => []
  | r :: rs =>
    if seen.contains (jsStr (rowGet r cc)) then firstPerCodeAux cc seen rs
    else r :: firstPerCodeAux cc (seen ++ [jsStr (rowGet r cc)]) rs

def firstPerCode (cc : String) (rows : List Row) : List Row :=
  firstPerCodeAux cc [] rows

theorem mergeFold_eq (cc qc : String) (rows : List Row) :
    ∀ (acc : ℚ) (seen : List String),
    (rows.foldl (mergeStep cc qc) (acc, seen)).1 =
    acc + ((firstPerCodeAux cc seen rows).map
      (fun r => (normalizeQuantity (rowGet r qc)).getD 0)).sum := by
  induction rows with
  | nil => intro acc seen; simp [firstPerCodeAux]
  | cons r rs ih =>
    intro acc seen
    rw [List.foldl_cons]
    cases h : seen.contains (jsStr (rowGet r cc)) with
    | true =>
      have hs : mergeStep cc qc (acc, seen) r = (acc, seen) := by
        simp only [mergeStep]
        rw [if_pos (by simpa using h)]
      rw [hs, ih acc seen]
      simp only [firstPerCodeAux]
      rw [if_pos h]
    | false =>
      have hs : mergeStep cc qc (acc, seen) r =
          (qadd acc ((normalizeQuantity (rowGet r qc)).getD 0),
            seen ++ [jsStr (rowGet r cc)]) := by
        simp only [mergeStep]
        rw [if_neg (by simpa using h)]
      rw [hs, ih]
      simp only [firstPerCodeAux]
      rw [if_neg (by simp only [h]; decide), List.map_cons, List.sum_cons,
        qadd_eq_add]
      ring

/-- The merged quantity is the sum, over the first occurrence of each
distinct source code, of that row's normalized quantity. -/
theorem mergeTotalQuantity_eq_dedup_sum (cc qc : String) (rows : List Row) :
    mergeTotalQuantity cc qc rows =
      ((firstPerCode cc rows).map
        (fun r => (normalizeQuantity (rowGet r qc)).getD 0)).sum := by
  unfold mergeTotalQuantity firstPerCode
  rw [mergeFold_eq cc qc rows 0 []]
  ring

theorem find?_cons_pos {α : Type} (p : α → Bool) (a : α) (l : List α)
    (h : p a = true) : List.find? p (a :: l) = some a := by
  show (match p a with | true => some a | false => List.find? p l) = some a
  rw [h]

theorem find?_cons_neg {α : Type} (p : α → Bool) (a : α) (l : List α)
    (h : p a = false) : List.find? p (a :: l) = List.find? p l := by
  show (match p a with | true => some a | false => List.find? p l)
    = List.find? p l
  rw [h]

theorem find?_map_overwrite (t : List (String × Cell)) (k k' : String)
    (v : Cell) (hne : k' ≠ k) :
    List.find? (fun p => p.1 == k')
      (t.map (fun p => if p.1 == k then (k, v) else p)) =
    List.find? (fun p => p.1 == k') t := by
  induction t with
  | nil => rfl
  | cons a t ih =>
    rw [List.map_cons]
    by_cases hk : (a.1 == k) = true
    · rw [if_pos hk]
      have hak : a.1 = k := by simpa using hk
      have h1 : (((k, v) : String × Cell).1 == k') = false := by
        simp only []
        rw [beq_eq_false_iff_ne]
        exact fun hc => hne hc.symm
      have h2 : (a.1 == k') = false := by
        rw [beq_eq_false_iff_ne, hak]
        exact fun hc => hne hc.symm
      rw [find?_cons_neg (fun p => p.1 == k') (k, v) _ h1,
        find?_cons_neg (fun p => p.1 == k') a _ h2]
      exact ih
    · rw [if_neg hk]
      by_cases hk' : (a.1 == k') = true
      · rw [find?_cons_pos (fun p => p.1 == k') a _ hk',
          find?_cons_pos (fun p => p.1 == k') a _ hk']
      · have hneg : (a.1 == k') = false := by simpa using hk'
        rw [find?_cons_neg (fun p => p.1 == k') a _ hneg,
          find?_cons_neg (fun p => p.1 == k') a _ hneg]
        exact ih

theorem find?_map_overwrite_self (t : List (String × Cell)) (k : String)
    (v : Cell) (hp : (List.find? (fun p => p.1 == k) t).isSome = true) :
    List.find? (fun p => p.1 == k)
      (t.map (fun p => if p.1 == k then (k, v) else p)) = some (k, v) := by
  induction t with
  | nil => simp [List.find?] at hp
  | cons a t ih =>
    rw [List.map_cons]
    by_cases hk : (a.1 == k) = true
    · rw [if_pos hk]
      rw [find?_cons_pos (fun p => p.1 == k) (k, v) _ (by simp)]
    · have hkf : (a.1 == k) = false := by simpa using hk
      rw [if_neg hk]
      rw [find?_cons_neg (fun p => p.1 == k) a _ hkf]
      refine ih ?_
      rw [find?_cons_neg (fun p => p.1 == k) a _ hkf] at hp
      exact hp

theorem rowGet_rowSet (r : Row) (k : String) (v : Cell) (k' : String) :
    rowGet (rowSet r k v) k' = if k' = k then some v else rowGet r k' := by
  unfold rowSet
  cases hp : (List.find? (fun p => p.1 == k) r).isSome with
  | true =>
    rw [if_pos rfl]
    by_cases hk' : k' = k
    · subst hk'
      unfold rowGet
      rw [find?_map_overwrite_self r k' v hp]
      simp
    · rw [if_neg hk']
      unfold rowGet
      rw [find?_map_overwrite r k k' v hk']
  | false =>
    rw [if_neg (by simp)]
    have hnone : List.find? (fun p => p.1 == k) r = none := by
      cases hf : List.find? (fun p => p.1 == k) r with
      | none => rfl
      | some a => rw [hf] at hp; simp at hp
    unfold rowGet
    rw [List.find?_append]
    by_cases hk' : k' = k
    · subst hk'
      rw [hnone]
      simp [List.find?]
    · rw [if_neg hk']
      cases hf : List.find? (fun p => p.1 == k') r with
      | some a => simp
      | none =>
        have h1 : (((k, v) : String × Cell).1 == k') = false := by
          simp only []
          rw [beq_eq_false_iff_ne]
          exact fun hc => hk' hc.symm
        simp [List.find?, h1]

theorem rowGet_mergedRow (headers : List String) (cc qc : String)
    (dc : Option String) (rule : MergeRule) (total : ℚ) (h : String) :
    rowGet (mergedRow headers cc qc dc rule total) h =
      if h ∈ headers then some (mergedCell cc qc dc rule total h)
      else none := by
  unfold mergedRow
  suffices hgen : ∀ (hs : List String) (r0 : Row),
      rowGet (hs.foldl (fun r h2 =>
        rowSet r h2 (mergedCell cc qc dc rule total h2)) r0) h =
      if h ∈ hs then some (mergedCell cc qc dc rule total h) else rowGet r0 h by
    rw [hgen headers []]
    rfl
  intro hs
  induction hs with
  | nil => intro r0; simp
  | cons a t ih =>
    intro r0
    rw [List.foldl_cons, ih]
    by_cases ht : h ∈ t
    · rw [if_pos ht, if_pos (List.mem_cons.mpr (Or.inr ht))]
    · rw [if_neg ht, rowGet_rowSet]
      by_cases ha : h = a
      · subst ha
        rw [if_pos rfl, if_pos (List.mem_cons.mpr (Or.inl rfl))]
      · rw [if_neg ha, if_neg (by
          intro hc
          rcases List.mem_cons.mp hc with hc | hc
          · exact ha hc
          · exact ht hc)]

/-- Claim C5: for every table and active MERGE rule with at least one
matching row, the merge step removes every row whose code is in the rule's
source-code set and appends exactly one synthesized row, whose quantity is
the sum over each distinct source code of the first occurrence's normalized
quantity (later duplicates contribute nothing, unparseable quantities
contribute 0), whose code column holds the result code, whose description
column (when mapped) holds the result description, and whose every other
header is the empty string; a rule matching no rows leaves the table
unchanged.  `applyTransformationRules` with that single active rule performs
exactly this step. -/
theorem C5_merge_rule (headers : List String) (cc qc : String)
    (dc catc : Option String) (data : List Row) (rule : MergeRule)
    (pf : ParsedFile) (hrc : rule.resultCode ≠ "") :
    (data.filter (fun row => rule.sourceCodes.contains (jsStr (rowGet row cc)))
        = [] →
      applyMergeRule headers cc qc dc data rule = data) ∧
    (data.filter (fun row => rule.sourceCodes.contains (jsStr (rowGet row cc)))
        ≠ [] →
      applyMergeRule headers cc qc dc data rule =
        data.filter (fun row =>
          !(rule.sourceCodes.contains (jsStr (rowGet row cc)))) ++
        [mergedRow headers cc qc dc rule (mergeTotalQuantity cc qc
          (data.filter (fun row =>
            rule.sourceCodes.contains (jsStr (rowGet row cc)))))]) ∧
    (∀ rows : List Row, mergeTotalQuantity cc qc rows =
      ((firstPerCode cc rows).map
        (fun r => (normalizeQuantity (rowGet r qc)).getD 0)).sum) ∧
    (∀ total : ℚ, ∀ h ∈ headers,
      rowGet (mergedRow headers cc qc dc rule total) h = some (
        if h == cc then .str rule.resultCode
        else if h == qc then .num total
        else if truthyOptStr dc && dc == some h then .str rule.resultDescription
        else .str "")) ∧
    (pf.headers = headers → pf.data = data →
      applyTransformationRules pf
        [.merge rule.sourceCodes rule.resultCode rule.resultDescription
          (some true)] cc qc dc catc
        = { pf with data := applyMergeRule headers cc qc dc data rule }) := by
  refine ⟨?_, ?_, ?_, ?_, ?_⟩
  · intro hnil
    unfold applyMergeRule
    rw [if_neg (by simpa using hrc), hnil]
    simp
  · intro hne
    unfold applyMergeRule
    rw [if_neg (by simpa using hrc)]
    rw [if_neg (by
      intro hc
      exact hne (List.isEmpty_iff.mp hc))]
  · intro rows
    exact mergeTotalQuantity_eq_dedup_sum cc qc rows
  · intro total h hh
    rw [rowGet_mergedRow, if_pos hh]
    rfl
  · intro hh hd
    cases pf with
    | mk nm hs dt =>
      simp only at hh hd
      subst hh
      subst hd
      rfl

/-- Witness for C5 at the spec's merge scenario: rule
`{MERGE, [A, B] → C, "Merged"}` over rows `A:"1.000,5"`, `B:"2,25"`,
`D:"5"` yields `[D:"5", C:1002.75 with description "Merged"]`
(`1.000,5 → 1000.5`, `2,25 → 2.25`, sum `1002.75`). -/
theorem C5_merge_rule_witness :
    ((⟨["A", "B"], "C", "Merged"⟩ : MergeRule).resultCode ≠ "") ∧
    (([[("c", Cell.str "A"), ("q", Cell.str "1.000,5"), ("d", Cell.str "")],
       [("c", Cell.str "B"), ("q", Cell.str "2,25"), ("d", Cell.str "")],
       [("c", Cell.str "D"), ("q", Cell.str "5"), ("d", Cell.str "")]] :
        List Row).filter (fun row =>
        (["A", "B"] : List String).contains (jsStr (rowGet row "c"))) ≠ []) ∧
    (applyTransformationRules
      ⟨"f", ["c", "q", "d"],
       [[("c", Cell.str "A"), ("q", Cell.str "1.000,5"), ("d", Cell.str "")],
        [("c", Cell.str "B"), ("q", Cell.str "2,25"), ("d", Cell.str "")],
        [("c", Cell.str "D"), ("q", Cell.str "5"), ("d", Cell.str "")]]⟩
      [.merge ["A", "B"] "C" "Merged" (some true)] "c" "q" (some "d") none
      = ⟨"f", ["c", "q", "d"],
         applyMergeRule ["c", "q", "d"] "c" "q" (some "d")
           [[("c", Cell.str "A"), ("q", Cell.str "1.000,5"), ("d", Cell.str "")],
            [("c", Cell.str "B"), ("q", Cell.str "2,25"), ("d", Cell.str "")],
            [("c", Cell.str "D"), ("q", Cell.str "5"), ("d", Cell.str "")]]
           ⟨["A", "B"], "C", "Merged"⟩⟩) ∧
    (applyMergeRule ["c", "q", "d"] "c" "q" (some "d")
      [[("c", Cell.str "A"), ("q", Cell.str "1.000,5"), ("d", Cell.str "")],
       [("c", Cell.str "B"), ("q", Cell.str "2,25"), ("d", Cell.str "")],
       [("c", Cell.str "D"), ("q", Cell.str "5"), ("d", Cell.str "")]]
      ⟨["A", "B"], "C", "Merged"⟩
      = [[("c", Cell.str "D"), ("q", Cell.str "5"), ("d", Cell.str "")],
         [("c", Cell.str "C"), ("q", Cell.num (nq 4011 4)),
          ("d", Cell.str "Merged")]]) ∧
    (mergeTotalQuantity "c" "q"
      [[("c", Cell.str "A"), ("q", Cell.str "1.000,5"), ("d", Cell.str "")],
       [("c", Cell.str "B"), ("q", Cell.str "2,25"), ("d", Cell.str "")]]
      = nq 4011 4) := by
  refine ⟨by decide, by decide, ?_, by decide, by decide⟩
  exact (C5_merge_rule ["c", "q", "d"] "c" "q" (some "d") none
    [[("c", Cell.str "A"), ("q", Cell.str "1.000,5"), ("d", Cell.str "")],
     [("c", Cell.str "B"), ("q", Cell.str "2,25"), ("d", Cell.str "")],
     [("c", Cell.str "D"), ("q", Cell.str "5"), ("d", Cell.str "")]]
    ⟨["A", "B"], "C", "Merged"⟩
    ⟨"f", ["c", "q", "d"],
     [[("c", Cell.str "A"), ("q", Cell.str "1.000,5"), ("d", Cell.str "")],
      [("c", Cell.str "B"), ("q", Cell.str "2,25"), ("d", Cell.str "")],
      [("c", Cell.str "D"), ("q", Cell.str "5"), ("d", Cell.str "")]]⟩
    (by decide)).2.2.2.2 rfl rfl

/-! ### Helper lemmas: the exclusion pass -/

/-- The Boolean match test of one EXCLUDE rule, in propositional form. -/
theorem excludeRuleMatches_iff (cc : String) (dc catc : Option String)
    (st : ExcludeSubType) (v : String) (row : Row) :
    excludeRuleMatches cc dc catc st v row = true ↔
    (match st with
     | .CODE_EXACT => jsStr (rowGet row cc) ∈ (jsSplitOnChar '+' v).map jsTrim
     | .CODE_STARTS => jsStartsWith (jsStr (rowGet row cc)) v = true
     | .DESCRIPTION_CONTAINS => truthyOptStr dc = true ∧
         jsIncludes (jsToUpper (cellOrEmptyStr (rowGet row (dc.getD ""))))
           (jsToUpper v) = true
     | .DESCRIPTION_STARTS => truthyOptStr dc = true ∧
         jsStartsWith (jsToUpper (cellOrEmptyStr (rowGet row (dc.getD ""))))
           (jsToUpper v) = true
     | .CATEGORY_EXACT => truthyOptStr catc = true ∧
         jsTrim (cellOrEmptyStr (rowGet row (catc.getD ""))) = v) := by
  cases st with
  | CODE_EXACT =>
    simp only [excludeRuleMatches]
    constructor
    · exact fun h => List.mem_of_elem_eq_true h
    · exact fun h => List.elem_eq_true_of_mem h
  | CODE_STARTS => exact Iff.rfl
  | DESCRIPTION_CONTAINS => simp only [excludeRuleMatches, Bool.and_eq_true]
  | DESCRIPTION_STARTS => simp only [excludeRuleMatches, Bool.and_eq_true]
  | CATEGORY_EXACT =>
    simp only [excludeRuleMatches, Bool.and_eq_true, beq_iff_eq]

/-- Membership in the extracted active exclude-rule list. -/
theorem mem_excludeRules_iff (rules : List TransformationRule)
    (st : ExcludeSubType) (v : String) :
    ((st, v) ∈ (rules.filter isActiveRule).filterMap excludePayload) ↔
    ∃ e, TransformationRule.exclude st v e ∈ rules ∧ ¬(e = some false) := by
  rw [List.mem_filterMap]
  constructor
  · rintro ⟨r, hr, hex⟩
    rw [List.mem_filter] at hr
    cases r with
    | merge _ _ _ _ => cases hex
    | exclude st2 v2 e =>
      simp only [excludePayload, Option.some.injEq, Prod.mk.injEq] at hex
      obtain ⟨h1, h2⟩ := hex
      subst h1
      subst h2
      refine ⟨e, hr.1, ?_⟩
      have := hr.2
      simp only [isActiveRule, TransformationRule.enabledFlag, Bool.not_eq_true'] at this
      exact fun hc => by rw [hc] at this; simp at this
  · rintro ⟨e, hmem, he⟩
    refine ⟨.exclude st v e, ?_, rfl⟩
    rw [List.mem_filter]
    refine ⟨hmem, ?_⟩
    simp only [isActiveRule, TransformationRule.enabledFlag, Bool.not_eq_true']
    rw [beq_eq_false_iff_ne]
    exact he

theorem applyTransformationRules_all_exclude (pf : ParsedFile)
    (rules : List TransformationRule) (cc qc : String)
    (dc catc : Option String)
    (hex : ∀ r ∈ rules, ∃ st v e, r = TransformationRule.exclude st v e) :
    applyTransformationRules pf rules cc qc dc catc =
      { pf with data := (applyExcludeRules cc dc catc
          ((rules.filter isActiveRule).filterMap excludePayload) pf.data) } := by
  have hmr : (rules.filter isActiveRule).filterMap mergePayload = [] := by
    rw [List.filterMap_eq_nil_iff]
    intro r hr
    rw [List.mem_filter] at hr
    obtain ⟨st, v, e, rfl⟩ := hex r hr.1
    rfl
  simp only [applyTransformationRules]
  rw [hmr, List.foldl_nil]

/-- Claim C6: the exclusion pass of `applyTransformationRules` keeps exactly
the rows matched by no active EXCLUDE rule (`enabled === false` rules never
exclude), matching per sub-kind: `CODE_EXACT` by membership of the
stringified code in the `'+'`-split trimmed set, `CODE_PREFIX` by prefix on
the code, `DESCRIPTION_CONTAINS`/`DESCRIPTION_PREFIX` (requiring a mapped
description column) by uppercased containment/prefix, and `CATEGORY_EXACT`
(requiring a mapped category column) by exact equality of the trimmed
category; headers are unchanged.  (`CODE_STARTS`/`DESCRIPTION_STARTS`
render the source's `CODE_PREFIX`/`DESCRIPTION_PREFIX`.) -/
theorem C6_exclusion_pass (pf : ParsedFile) (rules : List TransformationRule)
    (cc qc : String) (dc catc : Option String)
    (hex : ∀ r ∈ rules, ∃ st v e, r = TransformationRule.exclude st v e) :
    (applyTransformationRules pf rules cc qc dc catc).headers = pf.headers ∧
    (∀ row, row ∈ (applyTransformationRules pf rules cc qc dc catc).data ↔
      (row ∈ pf.data ∧ ∀ st v e,
        TransformationRule.exclude st v e ∈ rules → ¬(e = some false) →
        ¬(match st with
          | .CODE_EXACT =>
            jsStr (rowGet row cc) ∈ (jsSplitOnChar '+' v).map jsTrim
          | .CODE_STARTS => jsStartsWith (jsStr (rowGet row cc)) v = true
          | .DESCRIPTION_CONTAINS => truthyOptStr dc = true ∧
              jsIncludes (jsToUpper (cellOrEmptyStr (rowGet row (dc.getD ""))))
                (jsToUpper v) = true
          | .DESCRIPTION_STARTS => truthyOptStr dc = true ∧
              jsStartsWith (jsToUpper (cellOrEmptyStr (rowGet row (dc.getD ""))))
                (jsToUpper v) = true
          | .CATEGORY_EXACT => truthyOptStr catc = true ∧
              jsTrim (cellOrEmptyStr (rowGet row (catc.getD ""))) = v))) := by
  rw [applyTransformationRules_all_exclude pf rules cc qc dc catc hex]
  refine ⟨rfl, ?_⟩
  intro row
  unfold applyExcludeRules
  split
  · next hempty =>
    rw [List.isEmpty_iff] at hempty
    constructor
    · intro hrow
      refine ⟨hrow, ?_⟩
      intro st v e hmem he hmatch
      have hin : (st, v) ∈ (rules.filter isActiveRule).filterMap excludePayload :=
        (mem_excludeRules_iff rules st v).mpr ⟨e, hmem, he⟩
      rw [hempty] at hin
      cases hin
    · exact fun h => h.1
  · next hne =>
    rw [List.mem_filter]
    constructor
    · rintro ⟨hrow, hpred⟩
      refine ⟨hrow, ?_⟩
      intro st v e hmem he hmatch
      rw [Bool.not_eq_true', List.any_eq_false] at hpred
      have hin : (st, v) ∈ (rules.filter isActiveRule).filterMap excludePayload :=
        (mem_excludeRules_iff rules st v).mpr ⟨e, hmem, he⟩
      have hfalse := hpred (st, v) hin
      rw [← excludeRuleMatches_iff cc dc catc st v row] at hmatch
      exact hfalse (by simpa using hmatch)
    · rintro ⟨hrow, hall⟩
      refine ⟨hrow, ?_⟩
      rw [Bool.not_eq_true', List.any_eq_false]
      intro p hp
      obtain ⟨e, hmem, he⟩ := (mem_excludeRules_iff rules p.1 p.2).mp hp
      intro hc
      exact hall p.1 p.2 e hmem he
        ((excludeRuleMatches_iff cc dc catc p.1 p.2 row).mp (by simpa using hc))

/-- Witness for C6: the prefix rule `{EXCLUDE, CODE_PREFIX, "99"}` drops the
row with code `"9901"` and keeps the row with code `"1234"`. -/
theorem C6_exclusion_pass_witness :
    (∀ r ∈ ([.exclude .CODE_STARTS "99" none] : List TransformationRule),
      ∃ st v e, r = TransformationRule.exclude st v e) ∧
    (([("c", Cell.str "1234"), ("q", Cell.str "2")] : Row) ∈
      (applyTransformationRules
        ⟨"f", ["c", "q"],
         [[("c", Cell.str "9901"), ("q", Cell.str "1")],
          [("c", Cell.str "1234"), ("q", Cell.str "2")]]⟩
        [.exclude .CODE_STARTS "99" none] "c" "q" none none).data ↔
      (([("c", Cell.str "1234"), ("q", Cell.str "2")] : Row) ∈
        ([[("c", Cell.str "9901"), ("q", Cell.str "1")],
          [("c", Cell.str "1234"), ("q", Cell.str "2")]] : List Row) ∧
       ∀ st v e, TransformationRule.exclude st v e ∈
          ([.exclude .CODE_STARTS "99" none] : List TransformationRule) →
          ¬(e = some false) →
        ¬(match st with
          | .CODE_EXACT =>
            jsStr (rowGet [("c", Cell.str "1234"), ("q", Cell.str "2")] "c")
              ∈ (jsSplitOnChar '+' v).map jsTrim
          | .CODE_STARTS =>
            jsStartsWith (jsStr (rowGet
              [("c", Cell.str "1234"), ("q", Cell.str "2")] "c")) v = true
          | .DESCRIPTION_CONTAINS => truthyOptStr none = true ∧
              jsIncludes (jsToUpper (cellOrEmptyStr (rowGet
                [("c", Cell.str "1234"), ("q", Cell.str "2")]
                ((none : Option String).getD "")))) (jsToUpper v) = true
          | .DESCRIPTION_STARTS => truthyOptStr none = true ∧
              jsStartsWith (jsToUpper (cellOrEmptyStr (rowGet
                [("c", Cell.str "1234"), ("q", Cell.str "2")]
                ((none : Option String).getD "")))) (jsToUpper v) = true
          | .CATEGORY_EXACT => truthyOptStr none = true ∧
              jsTrim (cellOrEmptyStr (rowGet
                [("c", Cell.str "1234"), ("q", Cell.str "2")]
                ((none : Option String).getD ""))) = v))) ∧
    ((applyTransformationRules
        ⟨"f", ["c", "q"],
         [[("c", Cell.str "9901"), ("q", Cell.str "1")],
          [("c", Cell.str "1234"), ("q", Cell.str "2")]]⟩
        [.exclude .CODE_STARTS "99" none] "c" "q" none none).data
      = [[("c", Cell.str "1234"), ("q", Cell.str "2")]]) := by
  have hex : ∀ r ∈ ([.exclude .CODE_STARTS "99" none] : List TransformationRule),
      ∃ st v e, r = TransformationRule.exclude st v e := by
    intro r hr
    rcases List.mem_singleton.mp hr with rfl
    exact ⟨_, _, _, rfl⟩
  refine ⟨hex, ?_, by decide⟩
  exact (C6_exclusion_pass
    ⟨"f", ["c", "q"],
     [[("c", Cell.str "9901"), ("q", Cell.str "1")],
      [("c", Cell.str "1234"), ("q", Cell.str "2")]]⟩
    [.exclude .CODE_STARTS "99" none] "c" "q" none none
    hex).2 [("c", Cell.str "1234"), ("q", Cell.str "2")]

/-! ### Helper lemmas: `normalizeQuantity` branch equations -/

theorem normalizeQuantity_str (s : String) (hs : s ≠ "") :
    normalizeQuantity (some (.str s)) =
      parseJSFloat (jsReplaceFirstComma (jsRemoveDots (jsTrim s))) := by
  unfold normalizeQuantity
  split
  · next h => cases h
  · next h => simp at h; exact absurd h hs
  · next v h1 h2 h =>
    rw [← h]
    rfl

theorem normalizeQuantity_num (q : ℚ) :
    normalizeQuantity (some (.num q)) =
      parseJSFloat (jsReplaceFirstComma (jsRemoveDots (jsTrim (jsNumToString q)))) := by
  rfl

/-- Claim C7: the quantity normalizer returns the not-a-number signal
exactly when the value is `null`/`undefined` or the empty string, or when
the transformed string fails to parse; otherwise it returns the value
obtained by stringifying, trimming, deleting every `'.'` and replacing the
first `','` by `'.'` before parsing — so `"1.000,5"` normalizes to `1000.5`
and `"2,25"` to `2.25`. -/
theorem C7_normalizer :
    (normalizeQuantity none = none) ∧
    (normalizeQuantity (some (.str "")) = none) ∧
    (∀ v : Option Cell, normalizeQuantity v = none ↔
      (v = none ∨ v = some (.str "") ∨
       parseJSFloat (jsReplaceFirstComma (jsRemoveDots (jsTrim (jsStr v))))
         = none)) ∧
    (∀ s : String, s ≠ "" →
      normalizeQuantity (some (.str s)) =
        parseJSFloat (jsReplaceFirstComma (jsRemoveDots (jsTrim s)))) ∧
    (normalizeQuantity (some (.str "1.000,5")) = some (nq 2001 2) ∧
      (nq 2001 2 : ℚ) = 1000.5) ∧
    (normalizeQuantity (some (.str "2,25")) = some (nq 9 4) ∧
      (nq 9 4 : ℚ) = 2.25) := by
  refine ⟨rfl, rfl, ?_, normalizeQuantity_str, ⟨by decide, ?_⟩, ⟨by decide, ?_⟩⟩
  · intro v
    cases v with
    | none => simp [normalizeQuantity]
    | some c =>
      cases c with
      | str s =>
        by_cases hs : s = ""
        · subst hs
          simp [normalizeQuantity]
        · rw [normalizeQuantity_str s hs]
          simp [hs, jsStr]
      | num q =>
        rw [normalizeQuantity_num q]
        simp [jsStr]
  · rw [nq_eq_div]
    norm_num
  · rw [nq_eq_div]
    norm_num

/-- Witness for C7: the non-empty string `"1.000,5"` goes through the
trim / dot-strip / comma-replacement pipeline, yielding `1000.5`. -/
theorem C7_normalizer_witness :
    (("1.000,5" : String) ≠ "") ∧
    (normalizeQuantity (some (.str "1.000,5")) =
      parseJSFloat (jsReplaceFirstComma (jsRemoveDots (jsTrim "1.000,5")))) ∧
    (parseJSFloat (jsReplaceFirstComma (jsRemoveDots (jsTrim "1.000,5")))
      = some (nq 2001 2)) := by
  exact ⟨by decide, C7_normalizer.2.2.2.1 "1.000,5" (by decide), by decide⟩

/-- Counterexample to claim C8 as stated: a mapping whose `original.code` is
the empty string (not `null`) also throws the missing-mapping error — the
source tests JavaScript truthiness, which rejects `""` as well as `null`,
so "throws iff some role is unmapped (null)" is too narrow. -/
theorem C8_counterexample :
    (compareData [] []
      ⟨⟨some "", some "q", none, none, none⟩,
       ⟨some "c", some "q2", none, none, none⟩⟩ false ⟨false⟩
      = .error "Mappatura colonne obbligatorie mancante.") ∧
    ((⟨⟨some "", some "q", none, none, none⟩,
       ⟨some "c", some "q2", none, none, none⟩⟩ : Mappings).original.code
      ≠ none) ∧
    ((⟨⟨some "", some "q", none, none, none⟩,
       ⟨some "c", some "q2", none, none, none⟩⟩ : Mappings).original.quantity
      ≠ none) ∧
    ((⟨⟨some "", some "q", none, none, none⟩,
       ⟨some "c", some "q2", none, none, none⟩⟩ : Mappings).target.code
      ≠ none) ∧
    ((⟨⟨some "", some "q", none, none, none⟩,
       ⟨some "c", some "q2", none, none, none⟩⟩ : Mappings).target.quantity
      ≠ none) := by decide

/-- Claim C8 (amended): `compareData` throws synchronously, before reading
any row, if and only if at least one of the four roles `original.code`,
`original.quantity`, `target.code` (the source's `partial.code`),
`target.quantity` is unmapped (`null`) or mapped to the empty-string column
name (JavaScript falsiness); the thrown message is always the fixed
missing-mapping message; when it does not throw, it returns a result list —
no other failure is possible. -/
theorem C8_missing_mapping_amended (o p : List Row) (m : Mappings)
    (agg : Bool) (opts : CompareOptions) :
    ((∃ msg, compareData o p m agg opts = .error msg) ↔
      ¬(truthyOptStr m.original.code = true ∧
        truthyOptStr m.original.quantity = true ∧
        truthyOptStr m.target.code = true ∧
        truthyOptStr m.target.quantity = true)) ∧
    (∀ msg, compareData o p m agg opts = .error msg →
      msg = "Mappatura colonne obbligatorie mancante.") ∧
    ((truthyOptStr m.original.code = true ∧
      truthyOptStr m.original.quantity = true ∧
      truthyOptStr m.target.code = true ∧
      truthyOptStr m.target.quantity = true) →
      ∃ l, compareData o p m agg opts = .ok l) ∧
    (∀ c : Option String, truthyOptStr c = true ↔ (c ≠ none ∧ c ≠ some "")) := by
  refine ⟨?_, ?_, ?_, ?_⟩
  · cases hb : (truthyOptStr m.original.code && truthyOptStr m.original.quantity
        && truthyOptStr m.target.code && truthyOptStr m.target.quantity) with
    | true =>
      simp only [compareData, hb, Bool.not_true, Bool.false_eq_true, if_false]
      constructor
      · rintro ⟨msg, hmsg⟩
        cases hmsg
      · intro hc
        exfalso
        apply hc
        simp only [Bool.and_eq_true] at hb
        exact ⟨hb.1.1.1, hb.1.1.2, hb.1.2, hb.2⟩
    | false =>
      simp only [compareData, hb, Bool.not_false, if_true]
      constructor
      · intro _
        intro hc
        rw [hc.1, hc.2.1, hc.2.2.1, hc.2.2.2] at hb
        simp at hb
      · intro _
        exact ⟨_, rfl⟩
  · intro msg hmsg
    unfold compareData at hmsg
    split at hmsg
    · cases hmsg
      rfl
    · cases hmsg
  · intro ht
    unfold compareData
    split
    · next hb =>
      rw [ht.1, ht.2.1, ht.2.2.1, ht.2.2.2] at hb
      simp at hb
    · exact ⟨_, rfl⟩
  · intro c
    cases c with
    | none => simp [truthyOptStr]
    | some s =>
      constructor
      · intro h
        constructor
        · intro hc
          cases hc
        · intro hc
          have hs : s = "" := by injection hc
          rw [hs] at h
          simp [truthyOptStr] at h
      · intro h
        have hs : s ≠ "" := fun hc => h.2 (by rw [hc])
        simp [truthyOptStr, hs]

/-- Witness for the amended C8: with all four roles mapped to non-empty
columns, `compareData` returns a result list (no exception). -/
theorem C8_missing_mapping_amended_witness :
    (truthyOptStr (some "c") = true ∧ truthyOptStr (some "q") = true ∧
     truthyOptStr (some "c") = true ∧ truthyOptStr (some "q") = true) ∧
    (∃ l, compareData [] []
      ⟨⟨some "c", some "q", none, none, none⟩,
       ⟨some "c", some "q", none, none, none⟩⟩ false ⟨false⟩ = .ok l) := by
  refine ⟨⟨by decide, by decide, by decide, by decide⟩, ?_⟩
  exact (C8_missing_mapping_amended [] []
    ⟨⟨some "c", some "q", none, none, none⟩,
     ⟨some "c", some "q", none, none, none⟩⟩ false ⟨false⟩).2.2.1
    ⟨by decide, by decide, by decide, by decide⟩

/-! ### Helper lemmas: generic facts about the Map model -/

theorem jmGet_jmUpdate {α : Type} (m : List (String × α)) (k' : String)
    (f : α → α) (k : String) :
    jmGet (jmUpdate m k' f) k =
      if k = k' then (jmGet m k).map f else jmGet m k := by
  induction m with
  | nil =>
    unfold jmUpdate jmGet
    simp
  | cons a t ih =>
    have hhead : (if (a.1 == k') = true then (a.1, f a.2) else a).1 = a.1 := by
      split <;> rfl
    by_cases hka : (a.1 == k) = true
    · have hak : a.1 = k := by simpa using hka
      unfold jmUpdate jmGet
      rw [List.map_cons]
      rw [find?_cons_pos (fun p => p.1 == k)
          (if (a.1 == k') = true then (a.1, f a.2) else a) _
          (by show ((if (a.1 == k') = true then (a.1, f a.2) else a).1 == k) = true
              rw [hhead]; exact hka),
        find?_cons_pos (fun p => p.1 == k) a _ hka]
      by_cases hkk' : (a.1 == k') = true
      · have hkeq : k = k' := by rw [← hak]; simpa using hkk'
        rw [if_pos hkk', if_pos hkeq]
        rfl
      · have hkne : ¬(k = k') := by
          intro hc
          apply hkk'
          rw [hak, hc]
          simp
        rw [if_neg hkk', if_neg hkne]
    · have hkaf : (a.1 == k) = false := by simpa using hka
      unfold jmUpdate jmGet at ih ⊢
      rw [List.map_cons]
      rw [find?_cons_neg (fun p => p.1 == k)
          (if (a.1 == k') = true then (a.1, f a.2) else a) _
          (by show ((if (a.1 == k') = true then (a.1, f a.2) else a).1 == k) = false
              rw [hhead]; exact hkaf),
        find?_cons_neg (fun p => p.1 == k) a _ hkaf]
      exact ih

theorem jmGet_append_left {α : Type} (m x : List (String × α)) (k : String)
    (v : α) (h : jmGet m k = some v) : jmGet (m ++ x) k = some v := by
  unfold jmGet at h ⊢
  rw [List.find?_append]
  cases hf : List.find? (fun p => p.1 == k) m with
  | none => rw [hf] at h; cases h
  | some a =>
    rw [hf] at h
    simp only [Option.or_some] at *
    exact h

theorem jmGet_append_right {α : Type} (m x : List (String × α)) (k : String)
    (h : jmGet m k = none) : jmGet (m ++ x) k = jmGet x k := by
  unfold jmGet at h ⊢
  rw [List.find?_append]
  cases hf : List.find? (fun p => p.1 == k) m with
  | none => simp
  | some a => rw [hf] at h; cases h

theorem jmHas_jmUpdate {α : Type} (m : List (String × α)) (k' : String)
    (f : α → α) (k : String) :
    jmHas (jmUpdate m k' f) k = jmHas m k := by
  unfold jmHas
  rw [jmGet_jmUpdate]
  by_cases hkk : k = k'
  · rw [if_pos hkk]
    cases jmGet m k <;> rfl
  · rw [if_neg hkk]

theorem jmHas_append_mono {α : Type} (m x : List (String × α)) (k : String)
    (h : jmHas m k = true) : jmHas (m ++ x) k = true := by
  unfold jmHas at h ⊢
  cases hf : jmGet m k with
  | none => rw [hf] at h; cases h
  | some v => rw [jmGet_append_left m x k v hf]; rfl

theorem jmGet_singleton_self {α : Type} (k : String) (v : α) :
    jmGet [(k, v)] k = some v := by
  unfold jmGet
  rw [find?_cons_pos (fun p => p.1 == k) (k, v) [] (by simp)]
  rfl

theorem jmHas_append_key {α : Type} (m : List (String × α)) (k : String)
    (v : α) : jmHas (m ++ [(k, v)]) k = true := by
  unfold jmHas
  cases hf : jmGet m k with
  | some w => rw [jmGet_append_left m _ k w hf]; rfl
  | none => rw [jmGet_append_right m _ k hf, jmGet_singleton_self]; rfl

theorem jmHas_true_exists {α : Type} (m : List (String × α)) (k : String)
    (h : jmHas m k = true) : ∃ v, jmGet m k = some v := by
  unfold jmHas at h
  cases hf : jmGet m k with
  | none => rw [hf] at h; cases h
  | some v => exact ⟨v, rfl⟩

theorem jmHas_false_none {α : Type} (m : List (String × α)) (k : String)
    (h : jmHas m k = false) : jmGet m k = none := by
  unfold jmHas at h
  cases hf : jmGet m k with
  | none => rfl
  | some v => rw [hf] at h; cases h

/-! ### Helper lemmas: invariants of the target index build -/

theorem indexTargetRow_mapData_mono (ir : Bool) (tm : Mapping)
    (acc : TargetIndexes) (row : Row) (k : String)
    (h : jmHas acc.mapData k = true) :
    jmHas (indexTargetRow ir tm acc row).mapData k = true := by
  unfold indexTargetRow
  cases hn : normalizeQuantity (rowGet row (tm.quantity.getD "")) with
  | none => exact h
  | some q =>
    dsimp only
    split
    · exact h
    · dsimp only
      split
      · rw [jmHas_jmUpdate]
        exact h
      · exact jmHas_append_mono _ _ _ h

theorem indexTargetRow_mapData_self (ir : Bool) (tm : Mapping)
    (acc : TargetIndexes) (row : Row) (q : ℚ)
    (hn : normalizeQuantity (rowGet row (tm.quantity.getD "")) = some q)
    (hc : jsStr (rowGet row (tm.code.getD "")) ≠ "") :
    jmHas (indexTargetRow ir tm acc row).mapData
      (getKey ir (jsStr (rowGet row (tm.code.getD "")))
        (roleValue row tm.revision)) = true := by
  unfold indexTargetRow
  rw [hn]
  dsimp only
  rw [if_neg (by simp [hc])]
  dsimp only
  split
  · next hh => rw [jmHas_jmUpdate]; exact hh
  · exact jmHas_append_key _ _ _

theorem foldl_indexTargetRow_mono (ir : Bool) (tm : Mapping) (rows : List Row)
    (acc : TargetIndexes) (k : String) (h : jmHas acc.mapData k = true) :
    jmHas (rows.foldl (indexTargetRow ir tm) acc).mapData k = true := by
  induction rows generalizing acc with
  | nil => exact h
  | cons a t ih =>
    exact ih (indexTargetRow ir tm acc a)
      (indexTargetRow_mapData_mono ir tm acc a k h)

theorem foldl_indexTargetRow_self (ir : Bool) (tm : Mapping) (rows : List Row)
    (acc : TargetIndexes) (row : Row) (q : ℚ) (hrow : row ∈ rows)
    (hn : normalizeQuantity (rowGet row (tm.quantity.getD "")) = some q)
    (hc : jsStr (rowGet row (tm.code.getD "")) ≠ "") :
    jmHas (rows.foldl (indexTargetRow ir tm) acc).mapData
      (getKey ir (jsStr (rowGet row (tm.code.getD "")))
        (roleValue row tm.revision)) = true := by
  induction rows generalizing acc with
  | nil => cases hrow
  | cons a t ih =>
    rcases List.mem_cons.mp hrow with h | h
    · subst h
      exact foldl_indexTargetRow_mono ir tm t _ _
        (indexTargetRow_mapData_self ir tm acc row q hn hc)
    · exact ih (indexTargetRow ir tm acc a) h

theorem target_row_indexed (ir : Bool) (tm : Mapping) (t : List Row)
    (row : Row) (q : ℚ) (hrow : row ∈ t)
    (hn : normalizeQuantity (rowGet row (tm.quantity.getD "")) = some q)
    (hc : jsStr (rowGet row (tm.code.getD "")) ≠ "") :
    jmHas (buildTargetIndexes ir tm t).mapData
      (getKey ir (jsStr (rowGet row (tm.code.getD "")))
        (roleValue row tm.revision)) = true := by
  unfold buildTargetIndexes
  exact foldl_indexTargetRow_self ir tm t ⟨[], []⟩ row q hrow hn hc

/-! ### Helper lemmas: invariants of the absent-item aggregator -/

def absentStep (ir : Bool) (idx : TargetIndexes) (om : Mapping)
    (m : List (String × (ℚ × Row))) (row : Row) : List (String × (ℚ × Row)) :=
  match classifyOriginalRow ir idx om row with
  | .absent k q =>
    if jmHas m k then jmUpdate m k (fun e => (qadd e.1 q, e.2))
    else m ++ [(k, (q, row))]
  | _ => m

theorem nonAggAbsentMap_eq (ir : Bool) (idx : TargetIndexes) (om : Mapping)
    (rows : List Row) :
    nonAggAbsentMap ir idx om rows = rows.foldl (absentStep ir idx om) [] := rfl

theorem absentStep_has_mono (ir : Bool) (idx : TargetIndexes) (om : Mapping)
    (m : List (String × (ℚ × Row))) (row : Row) (k : String)
    (h : jmHas m k = true) :
    jmHas (absentStep ir idx om m row) k = true := by
  unfold absentStep
  cases hcl : classifyOriginalRow ir idx om row with
  | skip => exact h
  | emit r => exact h
  | absent k2 q =>
    dsimp only
    split
    · rw [jmHas_jmUpdate]
      exact h
    · exact jmHas_append_mono _ _ _ h

theorem absentStep_has_self (ir : Bool) (idx : TargetIndexes) (om : Mapping)
    (m : List (String × (ℚ × Row))) (row : Row) (k : String) (q : ℚ)
    (hcl : classifyOriginalRow ir idx om row = .absent k q) :
    jmHas (absentStep ir idx om m row) k = true := by
  unfold absentStep
  rw [hcl]
  dsimp only
  split
  · next hh => rw [jmHas_jmUpdate]; exact hh
  · exact jmHas_append_key _ _ _

theorem foldl_absentStep_mono (ir : Bool) (idx : TargetIndexes) (om : Mapping)
    (rows : List Row) (m : List (String × (ℚ × Row))) (k : String)
    (h : jmHas m k = true) :
    jmHas (rows.foldl (absentStep ir idx om) m) k = true := by
  induction rows generalizing m with
  | nil => exact h
  | cons a t ih =>
    exact ih (absentStep ir idx om m a) (absentStep_has_mono ir idx om m a k h)

theorem absent_row_in_absentMap (ir : Bool) (idx : TargetIndexes) (om : Mapping)
    (rows : List Row) (row : Row) (k : String) (q : ℚ) (hrow : row ∈ rows)
    (hcl : classifyOriginalRow ir idx om row = .absent k q) :
    jmHas (nonAggAbsentMap ir idx om rows) k = true := by
  rw [nonAggAbsentMap_eq]
  have main : ∀ (l : List Row) (m : List (String × (ℚ × Row))), row ∈ l →
      jmHas (l.foldl (absentStep ir idx om) m) k = true := by
    intro l
    induction l with
    | nil => intro m hm; cases hm
    | cons a t ih =>
      intro m hm
      rcases List.mem_cons.mp hm with h | h
      · subst h
        exact foldl_absentStep_mono ir idx om t _ k
          (absentStep_has_self ir idx om m row k q hcl)
      · exact ih (absentStep ir idx om m a) h
  exact main rows [] hrow

theorem absentEntry_mem_nonAggResults (ir : Bool) (idx : TargetIndexes)
    (om : Mapping) (rows : List Row) (k : String) (e : ℚ × Row)
    (h : jmGet (nonAggAbsentMap ir idx om rows) k = some e) :
    mkAbsentResult om e ∈ nonAggResults ir idx om rows := by
  unfold nonAggResults
  refine List.mem_append_right _ ?_
  exact List.mem_map.mpr ⟨(k, e), jmGet_mem _ _ _ h, rfl⟩

/-! ### Helper lemmas: invariants of the aggregated-group build -/

theorem addRowToGroups_get_mono (ir : Bool) (om : Mapping)
    (m : List (String × OrigGroup)) (row : Row) (k : String) (g : OrigGroup)
    (r : Row) (hg : jmGet m k = some g) (hr : r ∈ g.rows) :
    ∃ g2, jmGet (addRowToGroups ir om m row) k = some g2 ∧ r ∈ g2.rows := by
  unfold addRowToGroups
  dsimp only
  split
  · exact ⟨g, hg, hr⟩
  · split
    · rw [jmGet_jmUpdate]
      by_cases hkk : k = getKey ir (jsStr (rowGet row (om.code.getD "")))
          (roleValue row om.revision)
      · rw [if_pos hkk, hg]
        exact ⟨_, rfl, List.mem_append_left _ hr⟩
      · rw [if_neg hkk]
        exact ⟨g, hg, hr⟩
    · exact ⟨g, jmGet_append_left _ _ _ _ hg, hr⟩

theorem addRowToGroups_get_self (ir : Bool) (om : Mapping)
    (m : List (String × OrigGroup)) (row : Row)
    (hc : jsStr (rowGet row (om.code.getD "")) ≠ "") :
    ∃ g2, jmGet (addRowToGroups ir om m row)
        (getKey ir (jsStr (rowGet row (om.code.getD "")))
          (roleValue row om.revision)) = some g2 ∧ row ∈ g2.rows := by
  unfold addRowToGroups
  dsimp only
  rw [if_neg (by simp [hc])]
  split
  · next hh =>
    obtain ⟨g, hg⟩ := jmHas_true_exists _ _ hh
    rw [jmGet_jmUpdate, if_pos rfl, hg]
    exact ⟨_, rfl, List.mem_append_right _ (List.mem_singleton.mpr rfl)⟩
  · next hh =>
    have hnone := jmHas_false_none _ _ (by simpa using hh)
    rw [jmGet_append_right _ _ _ hnone, jmGet_singleton_self]
    exact ⟨_, rfl, List.mem_singleton.mpr rfl⟩

theorem foldl_addRowToGroups_mono (ir : Bool) (om : Mapping) (rows : List Row)
    (m : List (String × OrigGroup)) (k : String) (g : OrigGroup) (r : Row)
    (hg : jmGet m k = some g) (hr : r ∈ g.rows) :
    ∃ g2, jmGet (rows.foldl (addRowToGroups ir om) m) k = some g2 ∧
      r ∈ g2.rows := by
  induction rows generalizing m g with
  | nil => exact ⟨g, hg, hr⟩
  | cons a t ih =>
    obtain ⟨g1, hg1, hr1⟩ := addRowToGroups_get_mono ir om m a k g r hg hr
    exact ih (addRowToGroups ir om m a) g1 hg1 hr1

theorem row_in_buildOrigGroups (ir : Bool) (om : Mapping) (rows : List Row)
    (row : Row) (hrow : row ∈ rows)
    (hc : jsStr (rowGet row (om.code.getD "")) ≠ "") :
    ∃ g, jmGet (buildOrigGroups ir om rows)
        (getKey ir (jsStr (rowGet row (om.code.getD "")))
          (roleValue row om.revision)) = some g ∧ row ∈ g.rows := by
  unfold buildOrigGroups
  have main : ∀ (l : List Row) (m : List (String × OrigGroup)), row ∈ l →
      ∃ g, jmGet (l.foldl (addRowToGroups ir om) m)
        (getKey ir (jsStr (rowGet row (om.code.getD "")))
          (roleValue row om.revision)) = some g ∧ row ∈ g.rows := by
    intro l
    induction l with
    | nil => intro m hm; cases hm
    | cons a t ih =>
      intro m hm
      rcases List.mem_cons.mp hm with h | h
      · subst h
        obtain ⟨g0, hg0, hr0⟩ := addRowToGroups_get_self ir om m row hc
        exact foldl_addRowToGroups_mono ir om t _ _ g0 row hg0 hr0
      · exact ih (addRowToGroups ir om m a) h
  exact main rows [] hrow

/-! ### Helper lemmas: an aggregated group always emits -/

theorem isNone_eq_not_isSome {α : Type} (o : Option α) :
    o.isNone = !o.isSome := by
  cases o <;> rfl

theorem filter_not_eq_self_of_filter_nil {α : Type} (p : α → Bool)
    (l : List α) (h : l.filter p = []) :
    l.filter (fun a => !(p a)) = l := by
  induction l with
  | nil => rfl
  | cons a t ih =>
    rw [List.filter_cons] at h ⊢
    by_cases hp : p a = true
    · rw [if_pos hp] at h
      cases h
    · have hpf : p a = false := by simpa using hp
      rw [if_neg hp] at h
      rw [if_pos (by simp [hpf])]
      rw [ih h]

theorem emitAggGroup_ne_nil (ir : Bool) (idx : TargetIndexes) (om : Mapping)
    (key : String) (g : OrigGroup) (hg : g.rows ≠ []) :
    emitAggGroup ir idx om key g ≠ [] := by
  obtain ⟨r0, rest, hrows⟩ : ∃ r0 rest, g.rows = r0 :: rest := by
    cases hr : g.rows with
    | nil => exact absurd hr hg
    | cons a t => exact ⟨a, t, rfl⟩
  cases hm : jmGet idx.mapData key with
  | some te =>
    cases hq : qCloseTo g.quantity te.quantity with
    | true =>
      rw [emitAgg_of_match_close ir idx om key g r0 rest te hrows hm hq]
      simp
    | false =>
      rw [emitAgg_of_match_far ir idx om key g r0 rest te hrows hm hq, hrows]
      simp
  | none =>
    cases hrv : (if ir then none else
        jmGet idx.codeToRevisions (jsStr (rowGet r0 (om.code.getD "")))) with
    | some l =>
      cases l with
      | cons e erest =>
        rw [emitAgg_of_revision ir idx om key g r0 rest e erest hrows hm hrv]
        simp
      | nil =>
        rw [emitAgg_of_absent ir idx om key g r0 rest hrows hm
          (fun l2 hl2 => by rw [hrv] at hl2; cases hl2; rfl)]
        cases hemp : (g.rows.filter (fun r =>
            (normalizeQuantity (rowGet r (om.quantity.getD ""))).isSome)).isEmpty with
        | false => simp [hemp]
        | true =>
          have hnil := List.isEmpty_iff.mp hemp
          have hinv : g.rows.filter (fun r =>
              (normalizeQuantity (rowGet r (om.quantity.getD ""))).isNone)
              = g.rows := by
            rw [List.filter_congr (fun r _ => isNone_eq_not_isSome _)]
            exact filter_not_eq_self_of_filter_nil _ _ hnil
          rw [hinv, hrows]
          simp
    | none =>
      rw [emitAgg_of_absent ir idx om key g r0 rest hrows hm
        (fun l2 hl2 => by rw [hrv] at hl2; cases hl2)]
      cases hemp : (g.rows.filter (fun r =>
          (normalizeQuantity (rowGet r (om.quantity.getD ""))).isSome)).isEmpty with
      | false => simp [hemp]
      | true =>
        have hnil := List.isEmpty_iff.mp hemp
        have hinv : g.rows.filter (fun r =>
            (normalizeQuantity (rowGet r (om.quantity.getD ""))).isNone)
            = g.rows := by
          rw [List.filter_congr (fun r _ => isNone_eq_not_isSome _)]
          exact filter_not_eq_self_of_filter_nil _ _ hnil
        rw [hinv, hrows]
        simp

/-! ### Helper lemmas: the skip outcome and the target-only-absence pass -/

theorem classify_skip_iff (ir : Bool) (idx : TargetIndexes) (om : Mapping)
    (row : Row) :
    classifyOriginalRow ir idx om row = .skip ↔
      jsStr (rowGet row (om.code.getD "")) = "" := by
  constructor
  · intro h
    rcases classify_inversion ir idx om row with
      ⟨hc, _⟩ | ⟨hc, _, hcl⟩ | ⟨q, e, hc, _, _, hcl⟩ |
      ⟨q, e, rest, hc, _, _, hcl⟩ | ⟨q, hc, _, hcl⟩
    · exact hc
    all_goals rw [hcl] at h; exact RowOutcome.noConfusion h
  · exact classify_of_empty ir idx om row

/-- The `ABSENT_IN_ORIGINAL` record built from one target-index entry. -/
def absentInOriginalResult (p : String × TargetEntry) : ComparisonResult :=
  { originalCode := none, originalQuantity := none,
    originalDescription := none, originalRevision := none,
    originalCategory := none,
    targetCode := some (keyCode p.1),
    targetQuantity := some p.2.quantity,
    targetDescription := p.2.description,
    targetRevision := p.2.revision,
    targetCategory := p.2.category,
    status := .ABSENT_IN_ORIGINAL }

theorem mem_resultsFromTarget_of_unprocessed (processed : List String)
    (md : List (String × TargetEntry)) (p : String × TargetEntry)
    (hp : p ∈ md) (hu : processed.contains p.1 = false) :
    absentInOriginalResult p ∈ resultsFromTarget processed md := by
  unfold resultsFromTarget
  refine List.mem_filterMap.mpr ⟨p, hp, ?_⟩
  rw [if_neg (show ¬(processed.contains p.1 = true) by
    intro hmem; rw [hmem] at hu; cases hu)]
  rfl

theorem resultsFromTarget_mem_inv (processed : List String)
    (md : List (String × TargetEntry)) (r : ComparisonResult)
    (hr : r ∈ resultsFromTarget processed md) :
    r.status = .ABSENT_IN_ORIGINAL ∧
    ∃ p, p ∈ md ∧ processed.contains p.1 = false ∧
      r = absentInOriginalResult p := by
  unfold resultsFromTarget at hr
  obtain ⟨p, hp, hpr⟩ := List.mem_filterMap.mp hr
  by_cases hc : processed.contains p.1 = true
  · rw [if_pos hc] at hpr
    cases hpr
  · rw [if_neg hc] at hpr
    injection hpr with h
    refine ⟨?_, p, hp, by simpa using hc, ?_⟩
    · rw [← h]
    · exact h.symm

/-- Counterexample to claim C9 as stated: with `ignoreRevision = false`,
source `[{X, qty "1", rev A}]` against target
`[{X, "1", rev B}, {X, "2", rev C}]` — the second target row has a non-empty
code and a parseable quantity and is indexed under key `X::C`, yet the whole
output is a single `REVISION_DIFFERENT` record paired with the revision-B
entry: the revision fallback marks every revision-variant key of code `X` as
processed while pairing only the first entry, so the revision-C target row
appears in no emitted result (its quantity and revision occur nowhere in the
output). -/
theorem C9_counterexample :
    (jsStr (rowGet ([("c", Cell.str "X"), ("q", Cell.str "2"),
      ("r", Cell.str "C")] : Row) "c") ≠ "") ∧
    (normalizeQuantity (rowGet ([("c", Cell.str "X"), ("q", Cell.str "2"),
      ("r", Cell.str "C")] : Row) "q") = some (nq 2 1)) ∧
    (jmGet (buildTargetIndexes false ⟨some "c", some "q", none, some "r", none⟩
        [[("c", Cell.str "X"), ("q", Cell.str "1"), ("r", Cell.str "B")],
         [("c", Cell.str "X"), ("q", Cell.str "2"), ("r", Cell.str "C")]]).mapData
      (getKey false "X" (some "C")) = some ⟨nq 2 1, none, some "C", none⟩) ∧
    (compareData [[("c", Cell.str "X"), ("q", Cell.str "1"), ("r", Cell.str "A")]]
      [[("c", Cell.str "X"), ("q", Cell.str "1"), ("r", Cell.str "B")],
       [("c", Cell.str "X"), ("q", Cell.str "2"), ("r", Cell.str "C")]]
      ⟨⟨some "c", some "q", none, some "r", none⟩,
       ⟨some "c", some "q", none, some "r", none⟩⟩ false ⟨false⟩
      = .ok [revisionFallbackResult ⟨some "c", some "q", none, some "r", none⟩
          [("c", Cell.str "X"), ("q", Cell.str "1"), ("r", Cell.str "A")]
          (nq 1 1) ⟨some "B", none, nq 1 1, none⟩]) ∧
    ((revisionFallbackResult ⟨some "c", some "q", none, some "r", none⟩
        [("c", Cell.str "X"), ("q", Cell.str "1"), ("r", Cell.str "A")]
        (nq 1 1) ⟨some "B", none, nq 1 1, none⟩).targetRevision ≠ some "C") ∧
    ((revisionFallbackResult ⟨some "c", some "q", none, some "r", none⟩
        [("c", Cell.str "X"), ("q", Cell.str "1"), ("r", Cell.str "A")]
        (nq 1 1) ⟨some "B", none, nq 1 1, none⟩).targetQuantity ≠ some (nq 2 1)) ∧
    ((revisionFallbackResult ⟨some "c", some "q", none, some "r", none⟩
        [("c", Cell.str "X"), ("q", Cell.str "1"), ("r", Cell.str "A")]
        (nq 1 1) ⟨some "B", none, nq 1 1, none⟩).status
      ≠ .ABSENT_IN_ORIGINAL) := by decide

/-- Claim C9 (amended): for all inputs to `compareData` passing the
mandatory-mapping guard, the output decomposes into the display-mode walk
followed by the target-only-absence pass, and every row is accounted for as
follows.  Every target row with a non-empty code and a parseable quantity is
accumulated into the target-index entry at its key; each index entry whose
key is not in the definitive processed set yields its `ABSENT_IN_ORIGINAL`
record, and every record of the target pass arises that way.  A source row
is skipped exactly when its code is empty; in the non-aggregated walk every
non-empty-code source row either yields its own emitted result or is
accumulated, with all same-key absent rows, into its key's aggregator entry
whose single flushed `ABSENT` record is emitted; in the aggregated walk
every non-empty-code source row belongs to the group at its key, whose
emission list is non-empty and contained in the aggregated output.  The
rows silently dropped are target rows with an empty code or an unparseable
quantity, and additionally the target entries at the revision-variant keys
marked processed by a revision fallback: a source key that misses the
target index but whose bare code has a non-empty revision list marks every
revision-variant key of that code as processed, while only the first
revision entry is paired into the emitted record. -/
theorem C9_completeness_amended (o t : List Row) (m : Mappings) (agg : Bool)
    (opts : CompareOptions) (ir : Bool) (idx : TargetIndexes)
    (processed : List String)
    (h1 : truthyOptStr m.original.code = true)
    (h2 : truthyOptStr m.original.quantity = true)
    (h3 : truthyOptStr m.target.code = true)
    (h4 : truthyOptStr m.target.quantity = true)
    (hir : ir = opts.ignoreRevision)
    (hidx : idx = buildTargetIndexes ir m.target t)
    (hproc : processed = definitiveProcessedKeys ir idx m.original o) :
    (compareData o t m agg opts = .ok
      ((if agg then aggResults ir idx m.original o
        else nonAggResults ir idx m.original o)
        ++ resultsFromTarget processed idx.mapData)) ∧
    (∀ row ∈ t, jsStr (rowGet row (m.target.code.getD "")) ≠ "" →
      ∀ q, normalizeQuantity (rowGet row (m.target.quantity.getD "")) = some q →
      jmHas idx.mapData
        (getKey ir (jsStr (rowGet row (m.target.code.getD "")))
          (roleValue row m.target.revision)) = true) ∧
    (∀ p ∈ idx.mapData, processed.contains p.1 = false →
      absentInOriginalResult p ∈ resultsFromTarget processed idx.mapData) ∧
    (∀ r ∈ resultsFromTarget processed idx.mapData,
      r.status = .ABSENT_IN_ORIGINAL ∧
      ∃ p, p ∈ idx.mapData ∧ processed.contains p.1 = false ∧
        r = absentInOriginalResult p) ∧
    (∀ row, classifyOriginalRow ir idx m.original row = .skip ↔
      jsStr (rowGet row (m.original.code.getD "")) = "") ∧
    (∀ row ∈ o, jsStr (rowGet row (m.original.code.getD "")) ≠ "" →
      (∃ r, classifyOriginalRow ir idx m.original row = .emit r ∧
        r ∈ nonAggResults ir idx m.original o) ∨
      (∃ k q e, classifyOriginalRow ir idx m.original row = .absent k q ∧
        jmGet (nonAggAbsentMap ir idx m.original o) k = some e ∧
        mkAbsentResult m.original e ∈ nonAggResults ir idx m.original o)) ∧
    (∀ row ∈ o, jsStr (rowGet row (m.original.code.getD "")) ≠ "" →
      ∃ g, jmGet (buildOrigGroups ir m.original o)
          (getKey ir (jsStr (rowGet row (m.original.code.getD "")))
            (roleValue row m.original.revision)) = some g ∧
        row ∈ g.rows ∧
        emitAggGroup ir idx m.original
          (getKey ir (jsStr (rowGet row (m.original.code.getD "")))
            (roleValue row m.original.revision)) g ≠ [] ∧
        ∀ r ∈ emitAggGroup ir idx m.original
          (getKey ir (jsStr (rowGet row (m.original.code.getD "")))
            (roleValue row m.original.revision)) g,
          r ∈ aggResults ir idx m.original o) ∧
    (∀ p ∈ buildCheckMap ir m.original o, jmHas idx.mapData p.1 = false →
      ∀ l, (if ir then none else jmGet idx.codeToRevisions p.2.1) = some l →
      ∀ e ∈ l, getKey ir p.2.1 e.revision ∈ processed) := by
  refine ⟨?_, ?_, ?_, ?_, ?_, ?_, ?_, ?_⟩
  · subst hproc
    subst hidx
    subst hir
    unfold compareData
    rw [h1, h2, h3, h4]
    simp
  · intro row hrow hc q hn
    subst hidx
    exact target_row_indexed ir m.target t row q hrow hn hc
  · intro p hp hu
    exact mem_resultsFromTarget_of_unprocessed processed idx.mapData p hp hu
  · intro r hr
    exact resultsFromTarget_mem_inv processed idx.mapData r hr
  · intro row
    exact classify_skip_iff ir idx m.original row
  · intro row hrow hc
    rcases classify_inversion ir idx m.original row with
      ⟨hc0, _⟩ | ⟨_, _, hcl⟩ | ⟨q, e, _, _, _, hcl⟩ |
      ⟨q, e, rest, _, _, _, hcl⟩ | ⟨q, hc0, hn0, hcl⟩
    · exact absurd hc0 hc
    · exact Or.inl ⟨_, hcl,
        emit_mem_nonAggResults ir idx m.original o row _ hrow hcl⟩
    · exact Or.inl ⟨_, hcl,
        emit_mem_nonAggResults ir idx m.original o row _ hrow hcl⟩
    · exact Or.inl ⟨_, hcl,
        emit_mem_nonAggResults ir idx m.original o row _ hrow hcl⟩
    · refine Or.inr ?_
      have hhas := absent_row_in_absentMap ir idx m.original o row _ q hrow hcl
      obtain ⟨e, hget⟩ := jmHas_true_exists _ _ hhas
      exact ⟨_, q, e, hcl, hget,
        absentEntry_mem_nonAggResults ir idx m.original o _ e hget⟩
  · intro row hrow hc
    obtain ⟨g, hget, hmem⟩ := row_in_buildOrigGroups ir m.original o row hrow hc
    refine ⟨g, hget, hmem, ?_, ?_⟩
    · exact emitAggGroup_ne_nil ir idx m.original _ g
        (fun hnil => by rw [hnil] at hmem; cases hmem)
    · intro r hr
      exact (emitAggGroup_infix_aggResults ir idx m.original o _ g
        (jmGet_mem _ _ _ hget)).subset hr
  · subst hproc
    intro p hp hm0 l hl e he
    unfold definitiveProcessedKeys
    exact dpk_processes_revisions ir idx (buildCheckMap ir m.original o) []
      p l hp hm0 hl e he

/-- Witness for the amended C9 at a concrete comparison: with all four
mandatory roles mapped, the output of `compareData` decomposes into the
non-aggregated walk followed by the target-only-absence pass over the
definitive processed keys. -/
theorem C9_completeness_amended_witness :
    truthyOptStr ((⟨⟨some "c", some "q", none, some "r", none⟩,
        ⟨some "c", some "q", none, some "r", none⟩⟩ : Mappings).original.code)
      = true ∧
    compareData [[("c", Cell.str "X"), ("q", Cell.str "1"), ("r", Cell.str "A")]]
      [[("c", Cell.str "X"), ("q", Cell.str "1"), ("r", Cell.str "B")]]
      ⟨⟨some "c", some "q", none, some "r", none⟩,
       ⟨some "c", some "q", none, some "r", none⟩⟩ false ⟨false⟩
      = .ok ((if false then
          aggResults false
            (buildTargetIndexes false ⟨some "c", some "q", none, some "r", none⟩
              [[("c", Cell.str "X"), ("q", Cell.str "1"), ("r", Cell.str "B")]])
            ⟨some "c", some "q", none, some "r", none⟩
            [[("c", Cell.str "X"), ("q", Cell.str "1"), ("r", Cell.str "A")]]
        else
          nonAggResults false
            (buildTargetIndexes false ⟨some "c", some "q", none, some "r", none⟩
              [[("c", Cell.str "X"), ("q", Cell.str "1"), ("r", Cell.str "B")]])
            ⟨some "c", some "q", none, some "r", none⟩
            [[("c", Cell.str "X"), ("q", Cell.str "1"), ("r", Cell.str "A")]])
        ++ resultsFromTarget
          (definitiveProcessedKeys false
            (buildTargetIndexes false ⟨some "c", some "q", none, some "r", none⟩
              [[("c", Cell.str "X"), ("q", Cell.str "1"), ("r", Cell.str "B")]])
            ⟨some "c", some "q", none, some "r", none⟩
            [[("c", Cell.str "X"), ("q", Cell.str "1"), ("r", Cell.str "A")]])
          (buildTargetIndexes false ⟨some "c", some "q", none, some "r", none⟩
            [[("c", Cell.str "X"), ("q", Cell.str "1"), ("r", Cell.str "B")]]).mapData) :=
  ⟨by decide,
    (C9_completeness_amended
      [[("c", Cell.str "X"), ("q", Cell.str "1"), ("r", Cell.str "A")]]
      [[("c", Cell.str "X"), ("q", Cell.str "1"), ("r", Cell.str "B")]]
      ⟨⟨some "c", some "q", none, some "r", none⟩,
       ⟨some "c", some "q", none, some "r", none⟩⟩ false ⟨false⟩ false
      (buildTargetIndexes false ⟨some "c", some "q", none, some "r", none⟩
        [[("c", Cell.str "X"), ("q", Cell.str "1"), ("r", Cell.str "B")]])
      (definitiveProcessedKeys false
        (buildTargetIndexes false ⟨some "c", some "q", none, some "r", none⟩
          [[("c", Cell.str "X"), ("q", Cell.str "1"), ("r", Cell.str "B")]])
        ⟨some "c", some "q", none, some "r", none⟩
        [[("c", Cell.str "X"), ("q", Cell.str "1"), ("r", Cell.str "A")]])
      (by decide) (by decide) (by decide) (by decide) rfl rfl rfl).1⟩
